import Mathlib

/-!
# goi18n-parser: the analyzer of `analyzer.go`

A shallow embedding of `DefaultAnalyzer` (package `goi18np`): the syntax tree that
`go/parser` hands over, the walk of `ast.Inspect`, the callee resolver
`traversalToIdent`, the unquoting by `strings.Trim` and the accumulation of
`Records`, followed by the properties proved about them.
-/

set_option autoImplicit false

namespace Goi18np

/-! ## Constants (analyzer.go 13-16) -/

/-- Go constant `DefaultAnalyzerFuncName`. -/
def DefaultAnalyzerFuncName : String := "T"

/-- Go constant `MaxDepth`. -/
def MaxDepth : Nat := 5

/-! ## The syntax tree of `go/ast`, as far as the analyzer looks at it -/

/-- Kinds of `ast.BasicLit` (`token.INT`, `token.FLOAT`, `token.IMAG`, `token.CHAR`,
`token.STRING`). -/
inductive Token where
  | INT
  | FLOAT
  | IMAG
  | CHAR
  | STRING
  deriving DecidableEq, Repr

/-- Go `ast.Ident`: only the `Name` field is read. -/
structure Ident where
  Name : String
  deriving DecidableEq, Repr

/-- Go `ast.BasicLit`: `Value` is the literal as written in the source, quotes included. -/
structure BasicLit where
  Kind : Token
  Value : String
  deriving DecidableEq, Repr

/-- Go `ast.Node`. The four node kinds the analyzer tells apart have a constructor of
their own; every other node kind (`ast.File`, declarations, statements, `ast.ParenExpr`,
`ast.IndexExpr`, `ast.BinaryExpr`, ...) is `Other kind children`, with its children in
the order in which `ast.Walk` descends into them. `SelectorExpr.Sel` is an `Ident`, as
its Go type `*ast.Ident` says. -/
inductive Node where
  | Ident (x : Ident)
  | BasicLit (x : BasicLit)
  | SelectorExpr (X : Node) (Sel : Ident)
  | CallExpr (Fun : Node) (Args : List Node)
  | Other (kind : String) (children : List Node)
  deriving Repr

/-! ## Slices, records and the analyzer (analyzer.go 23-42) -/

/-- Go slice value: `nil` is the nil slice, `elems l` a non-nil slice holding `l`. -/
inductive Slice (α : Type) where
  | nil
  | elems (l : List α)
  deriving DecidableEq, Repr

/-- Elements of a slice, as `range` sees them. -/
def Slice.toList {α : Type} : Slice α → List α
  | .nil => []
  | .elems l => l

/-- Go builtin `append(s, x)`: the result is never nil. -/
def Slice.append {α : Type} (s : Slice α) (x : α) : Slice α :=
  .elems (s.toList ++ [x])

/-- Go struct `I18NRecord`. -/
structure I18NRecord where
  ID : String
  Translation : String
  deriving DecidableEq, Repr

/-- Go struct `DefaultAnalyzer`. -/
structure DefaultAnalyzer where
  FuncName : String
  Debug : Bool
  Records : Slice I18NRecord
  deriving DecidableEq, Repr

/-- Go method `DefaultAnalyzer.Name` (analyzer.go 31-36). -/
def DefaultAnalyzer.Name (da : DefaultAnalyzer) : String :=
  if da.FuncName ≠ "" then da.FuncName else DefaultAnalyzerFuncName

/-- The IDs held in `Records`, in order. -/
def DefaultAnalyzer.ids (da : DefaultAnalyzer) : List String :=
  da.Records.toList.map (·.ID)

/-! ## Library functions the analyzer calls -/

/-- Go `strings.Trim(s, cutset)`: `s` without its leading and trailing characters that
occur in `cutset`. -/
def Trim (s cutset : String) : String :=
  ⟨((s.data.dropWhile (fun c => cutset.data.contains c)).reverse.dropWhile
      (fun c => cutset.data.contains c)).reverse⟩

/-! ## The analyzer's functions -/

/-- Go `containsID` (analyzer.go 123-130). -/
def containsID (id : String) (rs : Slice I18NRecord) : Bool :=
  rs.toList.any (fun r => r.ID == id)

/-- Go `traversalToIdent` (analyzer.go 81-93); `none` is the nil result. -/
def traversalToIdent (n : Node) (depth : Nat) : Option Ident :=
  match n with
  | .Ident x => some x
  | .SelectorExpr _ Sel =>
    if depth < MaxDepth then traversalToIdent (.Ident Sel) (depth + 1) else none
  | _ => none
termination_by MaxDepth - depth
decreasing_by omega

/-- Run-time panics of `AnalyzeFromFile`. -/
inductive Panic where
  /-- The `panic(err)` of line 49, with the parser's error. -/
  | parseError (err : String)
  /-- Index out of range: `x.Args[0]` on an empty argument list. -/
  | indexOutOfRange
  /-- Failed type assertion: `x.Args[0].(*ast.BasicLit)` on a node of another kind. -/
  | typeAssertion
  deriving DecidableEq, Repr

/-- The function literal handed to `ast.Inspect` (analyzer.go 56-76), called on a node
or, after the children of a node, on nil (`none`). It yields the boolean it returns and
the analyzer as it leaves it, or the panic it raises. -/
def inspectFn (da : DefaultAnalyzer) (n : Option Node) : Except Panic (Bool × DefaultAnalyzer) :=
  match n with
  | some (.CallExpr Fun Args) =>
    match traversalToIdent Fun 0 with
    | none => .ok (true, da)
    | some ident =>
      let fn := ident.Name
      if fn = "T" then
        match Args with
        | [] => .error .indexOutOfRange
        | .BasicLit lit :: _ =>
          let key := Trim lit.Value "\""
          let r : I18NRecord := { ID := key, Translation := "" }
          if !containsID key da.Records then
            .ok (true, { da with Records := da.Records.append r })
          else
            .ok (true, da)
        | _ :: _ => .error .typeAssertion
      else
        .ok (true, da)
  | _ => .ok (true, da)

mutual
/-- Go `ast.Walk` with the inspector of `ast.Inspect` around `inspectFn`: the node, then
(when the function returned true) its children in order, then the closing call on nil.
The result is the analyzer as the walk leaves it and the panic that ended it, if any. -/
def Walk (n : Node) (da : DefaultAnalyzer) : DefaultAnalyzer × Option Panic :=
  match inspectFn da (some n) with
  | .error p => (da, some p)
  | .ok (false, da1) => (da1, none)
  | .ok (true, da1) =>
    let r :=
      match n with
      | .Ident _ => (da1, none)
      | .BasicLit _ => (da1, none)
      | .SelectorExpr X Sel =>
        match Walk X da1 with
        | (da2, none) => walkIdent Sel da2
        | r => r
      | .CallExpr Fun Args =>
        match Walk Fun da1 with
        | (da2, none) => walkList Args da2
        | r => r
      | .Other _ children => walkList children da1
    match r with
    | (da3, none) =>
      match inspectFn da3 none with
      | .error p => (da3, some p)
      | .ok (_, da4) => (da4, none)
    | r => r

/-- Go `ast.Walk` on the `*ast.Ident` in `SelectorExpr.Sel`, a node without children. -/
def walkIdent (x : Ident) (da : DefaultAnalyzer) : DefaultAnalyzer × Option Panic :=
  match inspectFn da (some (.Ident x)) with
  | .error p => (da, some p)
  | .ok (false, da1) => (da1, none)
  | .ok (true, da1) =>
    match inspectFn da1 none with
    | .error p => (da1, some p)
    | .ok (_, da2) => (da2, none)

/-- Go `ast.Walk` over a list of children, in order, stopping at a panic. -/
def walkList (ns : List Node) (da : DefaultAnalyzer) : DefaultAnalyzer × Option Panic :=
  match ns with
  | [] => (da, none)
  | n :: rest =>
    match Walk n da with
    | (da1, none) => walkList rest da1
    | r => r
end

/-- What a call of `AnalyzeFromFile` or `AnalyzeFromFiles` leaves behind: the receiver
as the call leaves it (at the panic, when it panics), the trees `ast.Print` wrote to
standard output, and the returned slice or the panic. -/
structure Outcome where
  da : DefaultAnalyzer
  stdout : List Node
  result : Except Panic (Slice I18NRecord)

/-- Go method `DefaultAnalyzer.AnalyzeFromFile` (analyzer.go 45-79). `ParseFile` stands
for `parser.ParseFile(fset, filename, nil, 0)`: the tree of the file, or the error. -/
def AnalyzeFromFile (ParseFile : String → Except String Node) (da : DefaultAnalyzer)
    (filename : String) : Outcome :=
  match ParseFile filename with
  | .error err => { da := da, stdout := [], result := .error (.parseError err) }
  | .ok f =>
    let out := if da.Debug then [f] else []
    match Walk f da with
    | (da1, some p) => { da := da1, stdout := out, result := .error p }
    | (da1, none) => { da := da1, stdout := out, result := .ok da1.Records }

/-- Go method `DefaultAnalyzer.AnalyzeFromFiles` (analyzer.go 96-101). -/
def AnalyzeFromFiles (ParseFile : String → Except String Node) (da : DefaultAnalyzer)
    (files : List String) : Outcome :=
  match files with
  | [] => { da := da, stdout := [], result := .ok da.Records }
  | filename :: rest =>
    let o := AnalyzeFromFile ParseFile da filename
    match o.result with
    | .error p => { da := o.da, stdout := o.stdout, result := .error p }
    | .ok _ =>
      let o2 := AnalyzeFromFiles ParseFile o.da rest
      { da := o2.da, stdout := o.stdout ++ o2.stdout, result := o2.result }

/-! ## Vocabulary of the properties -/

mutual
/-- Every node of a tree, in depth-first pre-order: a node, then its children from
first to last; the order in which `ast.Inspect` reaches them. -/
def Node.preorder : Node → List Node
  | .Ident x => [.Ident x]
  | .BasicLit x => [.BasicLit x]
  | .SelectorExpr X Sel => .SelectorExpr X Sel :: (X.preorder ++ [.Ident Sel])
  | .CallExpr Fun Args => .CallExpr Fun Args :: (Fun.preorder ++ preorderList Args)
  | .Other kind children => .Other kind children :: preorderList children

/-- Pre-order of a list of sibling trees. -/
def preorderList : List Node → List Node
  | [] => []
  | n :: rest => n.preorder ++ preorderList rest
end

/-- Name that the callee of a call expression resolves to (lines 59-64); `none` for a
node that is no call expression and for a callee that resolves to no identifier. -/
def resolvedName : Node → Option String
  | .CallExpr Fun _ => (traversalToIdent Fun 0).map (·.Name)
  | _ => none

/-- First argument of a call expression, when there is one. -/
def firstArg : Node → Option Node
  | .CallExpr _ (a :: _) => some a
  | _ => none

/-- Key that the walker extracts at a node: the node is a call whose callee resolves to
`T` and whose first argument is a basic literal, and the key is the literal's text
trimmed of double quotes. -/
def matchedKey (n : Node) : Option String :=
  if resolvedName n = some "T" then
    match firstArg n with
    | some (.BasicLit lit) => some (Trim lit.Value "\"")
    | _ => none
  else none

/-- Panic that the walker raises at a node: the node is a call whose callee resolves to
`T` and that has no first argument, or one that is no basic literal. -/
def panicAt (n : Node) : Option Panic :=
  if resolvedName n = some "T" then
    match firstArg n with
    | none => some .indexOutOfRange
    | some (.BasicLit _) => none
    | some _ => some .typeAssertion
  else none

/-- Keys of the matched calls of a tree, one per call, in pre-order of the calls. -/
def matchedKeys (f : Node) : List String :=
  f.preorder.filterMap matchedKey

/-- First-occurrence deduplication: every value once, at the place of its first
occurrence. -/
def firstOccurrences : List String → List String
  | [] => []
  | k :: ks => k :: (firstOccurrences ks).filter (fun x => x != k)

/-- The double-quoted string literal with the text `s` between its quotes. -/
def stringLit (s : String) : Node :=
  .BasicLit { Kind := .STRING, Value := "\"" ++ s ++ "\"" }

/-- The accumulation step of lines 67-72: append a record for `key` unless `Records`
holds its ID already. -/
def record (key : String) (da : DefaultAnalyzer) : DefaultAnalyzer :=
  if containsID key da.Records then da
  else { da with Records := da.Records.append { ID := key, Translation := "" } }

/-- The calls of `inspectFn` on a sequence of nodes, one after the other, up to the
first panic. -/
def visitAll : List Node → DefaultAnalyzer → DefaultAnalyzer × Option Panic
  | [], da => (da, none)
  | n :: rest, da =>
    match inspectFn da (some n) with
    | .error p => (da, some p)
    | .ok (_, da1) => visitAll rest da1

/-- The accumulation step over a sequence of keys, in order. -/
def recordAll (keys : List String) (da : DefaultAnalyzer) : DefaultAnalyzer :=
  keys.foldl (fun d k => record k d) da

/-! ## Source files used as concrete inputs -/

/-- Tree of the call `name(args)`. -/
def callOf (name : String) (args : List Node) : Node :=
  .CallExpr (.Ident { Name := name }) args

/-- Tree that `go/parser` builds for the file
`package main; func main() { e₁; ...; eₙ }`, the `eᵢ` being expression statements. -/
def goFile (exprs : List Node) : Node :=
  .Other "File"
    [.Ident { Name := "main" },
     .Other "FuncDecl"
       [.Ident { Name := "main" },
        .Other "FuncType" [.Other "FieldList" []],
        .Other "BlockStmt" (exprs.map (fun e => .Other "ExprStmt" [e]))]]

/-- The file `package main; func main() { T("x"); Tr("y") }`. -/
def fileTr : Node :=
  goFile [callOf "T" [stringLit "x"], callOf "Tr" [stringLit "y"]]

/-- The file `package main; func main() { T(dynamicVar); T("later") }`. -/
def fileDynamic : Node :=
  goFile [callOf "T" [.Ident { Name := "dynamicVar" }], callOf "T" [stringLit "later"]]

/-- The file `package main; func main() { T(); T("later") }`. -/
def fileNoArgs : Node :=
  goFile [callOf "T" [], callOf "T" [stringLit "later"]]

/-- The file `package main; func main() { T("hello"); T("hello"); T("world");
fmt.Println(x); T(dynamicVar) }`. -/
def fileScenario : Node :=
  goFile [callOf "T" [stringLit "hello"], callOf "T" [stringLit "hello"],
    callOf "T" [stringLit "world"],
    .CallExpr (.SelectorExpr (.Ident { Name := "fmt" }) { Name := "Println" })
      [.Ident { Name := "x" }],
    callOf "T" [.Ident { Name := "dynamicVar" }]]

/-- The file `package main; func main() { T("hello"); fmt.Println(T("world")); T("hello") }`. -/
def fileNested : Node :=
  goFile [callOf "T" [stringLit "hello"],
    .CallExpr (.SelectorExpr (.Ident { Name := "fmt" }) { Name := "Println" })
      [callOf "T" [stringLit "world"]],
    callOf "T" [stringLit "hello"]]

/-- The file `package main; func main() { T("world"); pkg.T("bye") }`. -/
def fileSecond : Node :=
  goFile [callOf "T" [stringLit "world"],
    .CallExpr (.SelectorExpr (.Ident { Name := "pkg" }) { Name := "T" }) [stringLit "bye"]]

/-- A file system with the two files `a.go` (`fileNested`) and `b.go` (`fileSecond`);
any other name fails to open. -/
def twoFiles (filename : String) : Except String Node :=
  if filename = "a.go" then .ok fileNested
  else if filename = "b.go" then .ok fileSecond
  else .error "open: no such file or directory"

/-- The qualified name `first.r₁.….rₙ`: selector expressions nested to the left, as
`go/parser` builds them. -/
def selectorChain (first : String) (rest : List String) : Node :=
  rest.foldl (fun x s => .SelectorExpr x { Name := s }) (.Ident { Name := first })

/-- The file `package main; func main() { T("\"") }`: the literal's text is the four
characters `"`, `\`, `"`, `"`. -/
def fileEscapedQuote : Node :=
  goFile [callOf "T" [stringLit "\\\""]]

/-- The file `package main; func main() { a.b.c.d.e.f.T("k") }`. -/
def fileSixLevels : Node :=
  goFile [.CallExpr (selectorChain "a" ["b", "c", "d", "e", "f", "T"]) [stringLit "k"]]

/-! ## Serialisation (analyzer.go 103-106) -/

/-- Lower-case hexadecimal digit of a number below 16, as `encoding/json` writes it. -/
def hexDigit (n : Nat) : Char :=
  "0123456789abcdef".data.getD n '0'

/-- Encoding of one character inside a JSON string by `encoding/json` (with its default
HTML escaping): quote and backslash get a backslash; backspace, form feed, newline,
carriage return and tab have their short form (the first two since Go 1.22, six
characters before); the other control characters below U+0020 and `<`, `>`, `&` are
written as a `u` escape with four hexadecimal digits, and so are U+2028 and U+2029;
every other character stands for itself. -/
def encodeChar (c : Char) : List Char :=
  if c = '"' ∨ c = '\\' then ['\\', c]
  else if c.toNat = 8 then ['\\', 'b']
  else if c.toNat = 12 then ['\\', 'f']
  else if c = '\n' then ['\\', 'n']
  else if c = '\r' then ['\\', 'r']
  else if c = '\t' then ['\\', 't']
  else if c.toNat < 32 ∨ c = '<' ∨ c = '>' ∨ c = '&' then
    ['\\', 'u', '0', '0', hexDigit (c.toNat / 16), hexDigit (c.toNat % 16)]
  else if c.toNat = 8232 then ['\\', 'u', '2', '0', '2', '8']
  else if c.toNat = 8233 then ['\\', 'u', '2', '0', '2', '9']
  else [c]

/-- Encoding of a Go string as a JSON string by `encoding/json`. -/
def encodeString (s : String) : String :=
  ⟨'"' :: (s.data.flatMap encodeChar ++ ['"'])⟩

/-- Encoding of one `I18NRecord` by `encoding/json`: an object with the fields of the
struct in their order, under the names of their `json` tags. -/
def marshalRecord (r : I18NRecord) : String :=
  "\x7b\"id\":" ++ encodeString r.ID ++ ",\"translation\":" ++ encodeString r.Translation
    ++ "\x7d"

/-- Go `json.Marshal` on a `[]I18NRecord`: `null` for the nil slice, an array of the
records' objects otherwise; it has no error to return for this type. -/
def Marshal (rs : Slice I18NRecord) : Except String String :=
  match rs with
  | .nil => .ok "null"
  | .elems l => .ok ("[" ++ ",".intercalate (l.map marshalRecord) ++ "]")

/-- Go method `DefaultAnalyzer.DumpJSON` (analyzer.go 104-106). -/
def DefaultAnalyzer.DumpJSON (da : DefaultAnalyzer) : Except String String :=
  Marshal da.Records

/-! ## Instrumented resolver -/

/-- The calls that `traversalToIdent n depth` makes, itself included: the depth of each
call in order, and whether one of them ended in the branch of a selector expression at
`depth >= MaxDepth`. -/
def traversalTrace (n : Node) (depth : Nat) : List Nat × Bool :=
  match n with
  | .Ident _ => ([depth], false)
  | .SelectorExpr _ Sel =>
    if depth < MaxDepth then
      (depth :: (traversalTrace (.Ident Sel) (depth + 1)).1,
        (traversalTrace (.Ident Sel) (depth + 1)).2)
    else ([depth], true)
  | _ => ([depth], false)
termination_by MaxDepth - depth
decreasing_by all_goals omega

/-! ## More source files -/

/-- The file `package main; func main() { T(42) }`. -/
def fileInt : Node :=
  goFile [callOf "T" [.BasicLit { Kind := .INT, Value := "42" }]]

/-- The file `package main; func main() { (T)(dynamicVar); (T)() }`: both callees are
parenthesized expressions. -/
def fileParen : Node :=
  goFile [.CallExpr (.Other "ParenExpr" [.Ident { Name := "T" }])
      [.Ident { Name := "dynamicVar" }],
    .CallExpr (.Other "ParenExpr" [.Ident { Name := "T" }]) []]

/-- The file `package main; func main() { fmt.Println(x) }`, without a call to `T`. -/
def fileNoMatch : Node :=
  goFile [.CallExpr (.SelectorExpr (.Ident { Name := "fmt" }) { Name := "Println" })
    [.Ident { Name := "x" }]]

/-- The chained call `T("a").T("b")`: the outer call has the selector `T("a").T` as its
callee. -/
def chainedCall : Node :=
  .CallExpr (.SelectorExpr (callOf "T" [stringLit "a"]) { Name := "T" }) [stringLit "b"]

/-- The file `package main; func main() { T("a").T("b") }`. -/
def fileChained : Node :=
  goFile [chainedCall]

/-- A file system with `a.go` and `b.go` as in `twoFiles` and the file `bad.go`, which
the parser rejects. -/
def withBadFile (filename : String) : Except String Node :=
  if filename = "bad.go" then .error "bad.go:3:1: expected declaration, found EOF"
  else twoFiles filename

/-! ## The walk as a sequence of visits -/

theorem traversalToIdent_ident (x : Ident) (depth : Nat) :
    traversalToIdent (.Ident x) depth = some x := by
  simp [traversalToIdent]

theorem traversalToIdent_selector (X : Node) (Sel : Ident) (depth : Nat) :
    traversalToIdent (.SelectorExpr X Sel) depth = if depth < MaxDepth then some Sel else none := by
  rw [traversalToIdent]
  simp [traversalToIdent_ident]

theorem inspectFn_none (da : DefaultAnalyzer) : inspectFn da none = .ok (true, da) := by
  simp [inspectFn]

theorem inspectFn_some (da : DefaultAnalyzer) (n : Node) :
    inspectFn da (some n) =
      match panicAt n with
      | some p => .error p
      | none => .ok (true, match matchedKey n with
                            | some k => record k da
                            | none => da) := by
  cases n with
  | CallExpr Fun Args =>
    cases Args with
    | nil =>
      cases h : traversalToIdent Fun 0 with
      | none => simp [inspectFn, panicAt, matchedKey, resolvedName, h]
      | some ident =>
        by_cases hT : ident.Name = "T" <;>
          simp [inspectFn, panicAt, matchedKey, resolvedName, h, hT, firstArg]
    | cons a rest =>
      cases h : traversalToIdent Fun 0 with
      | none => simp [inspectFn, panicAt, matchedKey, resolvedName, h]
      | some ident =>
        by_cases hT : ident.Name = "T"
        · cases a <;> simp [inspectFn, panicAt, matchedKey, resolvedName, h, hT, firstArg, record]
          split <;> simp_all
        · simp [inspectFn, panicAt, matchedKey, resolvedName, h, hT]
  | _ => simp [inspectFn, panicAt, matchedKey, resolvedName]

theorem visitAll_append (xs ys : List Node) (da : DefaultAnalyzer) :
    visitAll (xs ++ ys) da =
      match visitAll xs da with
      | (da1, none) => visitAll ys da1
      | r => r := by
  induction xs generalizing da with
  | nil => simp [visitAll]
  | cons x xs ih =>
    simp only [List.cons_append, visitAll]
    cases h : inspectFn da (some x) with
    | error p => simp
    | ok v => simp [ih]

mutual
theorem Walk_eq_visitAll (n : Node) (da : DefaultAnalyzer) :
    Walk n da = visitAll n.preorder da := by
  cases n with
  | Ident x =>
    simp [Walk, Node.preorder, visitAll, inspectFn]
  | BasicLit x =>
    simp [Walk, Node.preorder, visitAll, inspectFn]
  | SelectorExpr X Sel =>
    rw [Walk, Node.preorder, visitAll]
    simp only [inspectFn_none]
    have h : inspectFn da (some (.SelectorExpr X Sel)) = .ok (true, da) := by simp [inspectFn]
    rw [h]
    simp only [visitAll_append, Walk_eq_visitAll X da]
    rcases hx : visitAll X.preorder da with ⟨da2, _ | p⟩
    · simp [walkIdent, visitAll, inspectFn]
    · simp
  | CallExpr Fun Args =>
    rw [Walk, Node.preorder, visitAll]
    simp only [inspectFn_none]
    cases h : inspectFn da (some (.CallExpr Fun Args)) with
    | error p => simp
    | ok v =>
      obtain ⟨b, da1⟩ := v
      have hb : b = true := by
        rw [inspectFn_some] at h
        split at h <;> simp at h
        exact h.1
      subst hb
      simp only [visitAll_append, Walk_eq_visitAll Fun da1]
      rcases hx : visitAll Fun.preorder da1 with ⟨da2, _ | p⟩
      · simp only [walkList_eq_visitAll Args da2]
        rcases hy : visitAll (preorderList Args) da2 with ⟨da3, _ | p⟩ <;> simp
      · simp
  | Other kind children =>
    rw [Walk, Node.preorder, visitAll]
    simp only [inspectFn_none]
    have h : inspectFn da (some (.Other kind children)) = .ok (true, da) := by simp [inspectFn]
    rw [h]
    simp only [walkList_eq_visitAll children da]
    rcases hy : visitAll (preorderList children) da with ⟨da3, _ | p⟩ <;> simp

theorem walkList_eq_visitAll (ns : List Node) (da : DefaultAnalyzer) :
    walkList ns da = visitAll (preorderList ns) da := by
  cases ns with
  | nil => simp [walkList, preorderList, visitAll]
  | cons n rest =>
    rw [walkList, preorderList, visitAll_append, Walk_eq_visitAll n da]
    rcases hx : visitAll n.preorder da with ⟨da2, _ | p⟩
    · simp only [walkList_eq_visitAll rest da2]
    · simp
end


/-! ## Accumulation and first occurrences -/

theorem containsID_iff (k : String) (rs : Slice I18NRecord) :
    containsID k rs = true ↔ k ∈ rs.toList.map (·.ID) := by
  simp only [containsID, List.any_eq_true, List.mem_map, beq_iff_eq]

theorem record_of_mem (k : String) (da : DefaultAnalyzer) (h : k ∈ da.ids) :
    record k da = da := by
  have hc : containsID k da.Records = true := (containsID_iff k da.Records).2 h
  simp [record, hc]

theorem record_toList (k : String) (da : DefaultAnalyzer) :
    (record k da).Records.toList =
      if k ∈ da.ids then da.Records.toList
      else da.Records.toList ++ [{ ID := k, Translation := "" }] := by
  by_cases h : k ∈ da.ids
  · rw [record_of_mem k da h, if_pos h]
  · have hc : containsID k da.Records = false := by
      rw [← Bool.not_eq_true, containsID_iff]
      exact h
    simp [record, hc, h, Slice.append, Slice.toList]

theorem record_ids (k : String) (da : DefaultAnalyzer) :
    (record k da).ids = if k ∈ da.ids then da.ids else da.ids ++ [k] := by
  by_cases h : k ∈ da.ids
  · rw [record_of_mem k da h, if_pos h]
  · rw [if_neg h]
    unfold DefaultAnalyzer.ids at h ⊢
    rw [record_toList]
    unfold DefaultAnalyzer.ids
    rw [if_neg h]
    simp

theorem record_config (k : String) (da : DefaultAnalyzer) :
    (record k da).FuncName = da.FuncName ∧ (record k da).Debug = da.Debug := by
  unfold record
  split <;> simp

theorem recordAll_nil (da : DefaultAnalyzer) : recordAll [] da = da := rfl

theorem recordAll_cons (k : String) (ks : List String) (da : DefaultAnalyzer) :
    recordAll (k :: ks) da = recordAll ks (record k da) := rfl

theorem recordAll_append (xs ys : List String) (da : DefaultAnalyzer) :
    recordAll (xs ++ ys) da = recordAll ys (recordAll xs da) := by
  simp [recordAll, List.foldl_append]

theorem recordAll_config (ks : List String) (da : DefaultAnalyzer) :
    (recordAll ks da).FuncName = da.FuncName ∧ (recordAll ks da).Debug = da.Debug := by
  induction ks generalizing da with
  | nil => exact ⟨rfl, rfl⟩
  | cons k ks ih =>
    rw [recordAll_cons]
    exact ⟨(ih (record k da)).1.trans (record_config k da).1,
      (ih (record k da)).2.trans (record_config k da).2⟩

theorem firstOccurrences_filter_comm (p : String → Bool) (ks : List String) :
    firstOccurrences (ks.filter p) = (firstOccurrences ks).filter p := by
  induction ks with
  | nil => rfl
  | cons k ks ih =>
    by_cases hp : p k = true
    · simp only [List.filter_cons_of_pos hp, firstOccurrences, ih, List.filter_filter]
      congr 1
      apply List.filter_congr
      intro x _
      exact Bool.and_comm _ _
    · simp only [List.filter_cons_of_neg hp, firstOccurrences, ih, List.filter_filter]
      apply List.filter_congr
      intro x _
      by_cases hx : x = k
      · subst hx
        simp [hp]
      · simp [hx]

theorem mem_firstOccurrences (k : String) (ks : List String) :
    k ∈ firstOccurrences ks ↔ k ∈ ks := by
  induction ks with
  | nil => simp [firstOccurrences]
  | cons a ks ih =>
    simp only [firstOccurrences, List.mem_cons, List.mem_filter, ih, bne_iff_ne, ne_eq]
    by_cases h : k = a
    · simp [h]
    · simp [h]

theorem nodup_firstOccurrences (ks : List String) : (firstOccurrences ks).Nodup := by
  induction ks with
  | nil => simp [firstOccurrences]
  | cons a ks ih =>
    simp only [firstOccurrences, List.nodup_cons, List.mem_filter, bne_self_eq_false,
      Bool.false_eq_true, and_false, not_false_eq_true, true_and]
    exact ih.filter _

theorem recordAll_ids (ks : List String) (da : DefaultAnalyzer) :
    (recordAll ks da).ids =
      da.ids ++ (firstOccurrences ks).filter (fun x => decide (x ∉ da.ids)) := by
  induction ks generalizing da with
  | nil => simp [recordAll_nil, firstOccurrences]
  | cons k ks ih =>
    rw [recordAll_cons, ih, record_ids]
    by_cases h : k ∈ da.ids
    · rw [if_pos h]
      simp only [firstOccurrences, List.filter_cons, h, not_true_eq_false,
        decide_False, Bool.false_eq_true, if_false, List.filter_filter]
      congr 1
      apply List.filter_congr
      intro x _
      by_cases hx : x = k
      · subst hx
        simp [h]
      · simp [hx]
    · rw [if_neg h]
      simp only [firstOccurrences, List.filter_cons, h, not_false_eq_true,
        decide_True, if_true, List.filter_filter, List.append_assoc, List.singleton_append]
      congr 2
      apply List.filter_congr
      intro x _
      by_cases hx : x = k
      · subst hx
        simp
      · simp [hx]

theorem recordAll_toList (ks : List String) (da : DefaultAnalyzer) :
    (recordAll ks da).Records.toList =
      da.Records.toList ++
        ((firstOccurrences ks).filter (fun x => decide (x ∉ da.ids))).map
          (fun k => { ID := k, Translation := "" }) := by
  induction ks generalizing da with
  | nil => simp [recordAll_nil, firstOccurrences]
  | cons k ks ih =>
    rw [recordAll_cons, ih, record_toList, record_ids]
    by_cases h : k ∈ da.ids
    · rw [if_pos h, if_pos h]
      simp only [firstOccurrences, List.filter_cons, h, not_true_eq_false,
        decide_False, Bool.false_eq_true, if_false, List.filter_filter]
      congr 2
      apply List.filter_congr
      intro x _
      by_cases hx : x = k
      · subst hx
        simp [h]
      · simp [hx]
    · rw [if_neg h, if_neg h]
      simp only [firstOccurrences, List.filter_cons, h, not_false_eq_true,
        decide_True, if_true, List.filter_filter, List.append_assoc, List.singleton_append,
        List.map_cons]
      congr 3
      apply List.filter_congr
      intro x _
      by_cases hx : x = k
      · subst hx
        simp
      · simp [hx]

theorem recordAll_nodup (ks : List String) (da : DefaultAnalyzer) (h : da.ids.Nodup) :
    (recordAll ks da).ids.Nodup := by
  rw [recordAll_ids]
  refine List.Nodup.append h ((nodup_firstOccurrences ks).filter _) ?_
  intro x hx hx2
  simp only [List.mem_filter, decide_eq_true_eq] at hx2
  exact hx2.2 hx

theorem recordAll_of_subset (ks : List String) (da : DefaultAnalyzer)
    (h : ∀ k ∈ ks, k ∈ da.ids) : recordAll ks da = da := by
  induction ks with
  | nil => rfl
  | cons k ks ih =>
    rw [recordAll_cons, record_of_mem k da (h k (List.mem_cons_self _ _))]
    exact ih (fun x hx => h x (List.mem_cons_of_mem _ hx))

theorem mem_recordAll_ids (k : String) (ks : List String) (da : DefaultAnalyzer) :
    k ∈ (recordAll ks da).ids ↔ k ∈ da.ids ∨ k ∈ ks := by
  rw [recordAll_ids]
  simp only [List.mem_append, List.mem_filter, mem_firstOccurrences, decide_eq_true_eq]
  by_cases h : k ∈ da.ids
  · simp [h]
  · simp [h]

theorem visitAll_of_noPanic (ns : List Node) (da : DefaultAnalyzer)
    (h : ∀ n ∈ ns, panicAt n = none) :
    visitAll ns da = (recordAll (ns.filterMap matchedKey) da, none) := by
  induction ns generalizing da with
  | nil => rfl
  | cons n ns ih =>
    have hn : panicAt n = none := h n (List.mem_cons_self _ _)
    have hrest : ∀ m ∈ ns, panicAt m = none := fun m hm => h m (List.mem_cons_of_mem _ hm)
    rw [visitAll, inspectFn_some, hn]
    cases hk : matchedKey n with
    | none => simp [List.filterMap_cons, hk, ih _ hrest]
    | some k => simp [List.filterMap_cons, hk, ih _ hrest, recordAll_cons]

theorem visitAll_panic (ns : List Node) (da da1 : DefaultAnalyzer) (p : Panic)
    (h : visitAll ns da = (da1, some p)) :
    ∃ pre n post, ns = pre ++ n :: post ∧ (∀ m ∈ pre, panicAt m = none) ∧
      panicAt n = some p ∧ da1 = recordAll (pre.filterMap matchedKey) da := by
  induction ns generalizing da with
  | nil => simp [visitAll] at h
  | cons n ns ih =>
    rw [visitAll, inspectFn_some] at h
    cases hp : panicAt n with
    | some q =>
      rw [hp] at h
      simp only [Prod.mk.injEq, Option.some.injEq] at h
      refine ⟨[], n, ns, rfl, by simp, ?_, ?_⟩
      · rw [hp, h.2]
      · simp [recordAll_nil, h.1]
    | none =>
      rw [hp] at h
      simp only at h
      obtain ⟨pre, m, post, hns, hpre, hm, hda⟩ := ih _ h
      refine ⟨n :: pre, m, post, by simp [hns], ?_, hm, ?_⟩
      · intro x hx
        rcases List.mem_cons.1 hx with rfl | hx
        · exact hp
        · exact hpre x hx
      · rw [hda]
        cases hk : matchedKey n with
        | none => simp [List.filterMap_cons, hk]
        | some k => simp [List.filterMap_cons, hk, recordAll_cons]

theorem visitAll_none_iff (ns : List Node) (da : DefaultAnalyzer) :
    (visitAll ns da).2 = none ↔ ∀ n ∈ ns, panicAt n = none := by
  constructor
  · intro h n hn
    by_contra hne
    induction ns generalizing da with
    | nil => simp at hn
    | cons m ns ih =>
      rw [visitAll, inspectFn_some] at h
      cases hp : panicAt m with
      | some q => simp [hp] at h
      | none =>
        rw [hp] at h
        rcases List.mem_cons.1 hn with rfl | hn
        · exact hne hp
        · exact ih _ h hn
  · intro h
    rw [visitAll_of_noPanic ns da h]

/-! ## The two entry points -/

theorem AnalyzeFromFile_of_noPanic (P : String → Except String Node) (da : DefaultAnalyzer)
    (filename : String) (f : Node) (hp : P filename = .ok f)
    (h : ∀ n ∈ f.preorder, panicAt n = none) :
    AnalyzeFromFile P da filename =
      { da := recordAll (matchedKeys f) da,
        stdout := if da.Debug then [f] else [],
        result := .ok (recordAll (matchedKeys f) da).Records } := by
  simp only [AnalyzeFromFile, hp, Walk_eq_visitAll, visitAll_of_noPanic f.preorder da h,
    matchedKeys]

theorem AnalyzeFromFile_noPanic_of_ok (P : String → Except String Node)
    (da : DefaultAnalyzer) (filename : String) (f : Node) (rs : Slice I18NRecord)
    (hp : P filename = .ok f) (hr : (AnalyzeFromFile P da filename).result = .ok rs) :
    ∀ n ∈ f.preorder, panicAt n = none := by
  rw [← visitAll_none_iff f.preorder da]
  simp only [AnalyzeFromFile, hp, Walk_eq_visitAll] at hr
  rcases hv : visitAll f.preorder da with ⟨da1, _ | p⟩
  · rfl
  · rw [hv] at hr
    simp at hr

theorem AnalyzeFromFile_parsed_of_ok (P : String → Except String Node)
    (da : DefaultAnalyzer) (filename : String) (rs : Slice I18NRecord)
    (hr : (AnalyzeFromFile P da filename).result = .ok rs) :
    ∃ f, P filename = .ok f := by
  cases hp : P filename with
  | error e => simp [AnalyzeFromFile, hp] at hr
  | ok f => exact ⟨f, rfl⟩

theorem AnalyzeFromFiles_of_noPanic (P : String → Except String Node) (files : List String)
    (trees : List Node) (da : DefaultAnalyzer) (hp : files.map P = trees.map .ok)
    (h : ∀ f ∈ trees, ∀ n ∈ f.preorder, panicAt n = none) :
    AnalyzeFromFiles P da files =
      { da := recordAll (trees.flatMap matchedKeys) da,
        stdout := if da.Debug then trees else [],
        result := .ok (recordAll (trees.flatMap matchedKeys) da).Records } := by
  induction files generalizing trees da with
  | nil =>
    cases trees with
    | nil => simp [AnalyzeFromFiles, recordAll_nil]
    | cons t ts => simp at hp
  | cons fn rest ih =>
    cases trees with
    | nil => simp at hp
    | cons t ts =>
      simp only [List.map_cons, List.cons.injEq] at hp
      have ht : ∀ n ∈ t.preorder, panicAt n = none := h t (List.mem_cons_self _ _)
      have hts : ∀ f ∈ ts, ∀ n ∈ f.preorder, panicAt n = none :=
        fun f hf => h f (List.mem_cons_of_mem _ hf)
      rw [AnalyzeFromFiles, AnalyzeFromFile_of_noPanic P da fn t hp.1 ht]
      simp only [ih ts _ hp.2 hts, List.flatMap_cons, recordAll_append,
        (recordAll_config (matchedKeys t) da).2]
      cases da.Debug <;> simp

theorem AnalyzeFromFiles_noPanic_of_ok (P : String → Except String Node)
    (files : List String) (trees : List Node) (da : DefaultAnalyzer)
    (rs : Slice I18NRecord) (hp : files.map P = trees.map .ok)
    (hr : (AnalyzeFromFiles P da files).result = .ok rs) :
    ∀ f ∈ trees, ∀ n ∈ f.preorder, panicAt n = none := by
  induction files generalizing trees da with
  | nil =>
    cases trees with
    | nil => simp
    | cons t ts => simp at hp
  | cons fn rest ih =>
    cases trees with
    | nil => simp at hp
    | cons t ts =>
      simp only [List.map_cons, List.cons.injEq] at hp
      rw [AnalyzeFromFiles] at hr
      cases h1 : (AnalyzeFromFile P da fn).result with
      | error p => simp [h1] at hr
      | ok r1 =>
        simp only [h1] at hr
        have ht := AnalyzeFromFile_noPanic_of_ok P da fn t r1 hp.1 h1
        intro f hf
        rcases List.mem_cons.1 hf with rfl | hf
        · exact ht
        · exact ih ts _ hp.2 hr f hf

/-! ## `strings.Trim` with the cutset `"\""` -/

theorem quote_contains (c : Char) : ("\"".data.contains c) = true ↔ c = '"' := by
  show (['"'].contains c) = true ↔ c = '"'
  simp

theorem head?_dropWhile_not (p : Char → Bool) (l : List Char) (c : Char)
    (h : (l.dropWhile p).head? = some c) : p c = false := by
  induction l with
  | nil => simp at h
  | cons a l ih =>
    by_cases ha : p a = true
    · rw [List.dropWhile_cons_of_pos ha] at h
      exact ih h
    · rw [List.dropWhile_cons_of_neg ha] at h
      simp only [List.head?_cons, Option.some.injEq] at h
      subst h
      simpa using ha

theorem takeWhile_eq_replicate (p : Char → Bool) (q : Char) (hp : ∀ c, p c = true → c = q)
    (l : List Char) : l.takeWhile p = List.replicate (l.takeWhile p).length q := by
  apply List.eq_replicate_of_mem
  intro b hb
  exact hp b (List.mem_takeWhile_imp hb)

theorem dropWhile_of_head (p : Char → Bool) (l : List Char)
    (h : ∀ c, l.head? = some c → p c = false) : l.dropWhile p = l := by
  cases l with
  | nil => rfl
  | cons a l =>
    have ha : ¬ p a = true := by simp [h a rfl]
    rw [List.dropWhile_cons_of_neg ha]

/-- The characters of `Trim v "\""`: what is left of `v` once its leading and its
trailing double quotes are taken away. -/
theorem Trim_quote_spec (v : String) :
    ∃ a b : Nat,
      v.data = List.replicate a '"' ++ (Trim v "\"").data ++ List.replicate b '"' ∧
      (Trim v "\"").data.head? ≠ some '"' ∧ (Trim v "\"").data.getLast? ≠ some '"' := by
  let p : Char → Bool := fun c => "\"".data.contains c
  have hp : ∀ c, p c = true → c = '"' := fun c hc => (quote_contains c).1 hc
  have hp2 : p '"' = true := (quote_contains '"').2 rfl
  let m := v.data.dropWhile p
  let r := m.reverse.dropWhile p
  have hT : (Trim v "\"").data = r.reverse := rfl
  have h1 : v.data = v.data.takeWhile p ++ m := (List.takeWhile_append_dropWhile p v.data).symm
  have h2 : m.reverse = m.reverse.takeWhile p ++ r :=
    (List.takeWhile_append_dropWhile p m.reverse).symm
  have h3 : m = r.reverse ++ (m.reverse.takeWhile p).reverse := by
    have := congrArg List.reverse h2
    simpa using this
  have hr : r.head? ≠ some '"' := by
    intro h
    have := head?_dropWhile_not p m.reverse '"' h
    rw [hp2] at this
    exact absurd this (by simp)
  have hm : m.head? ≠ some '"' := by
    intro h
    have := head?_dropWhile_not p v.data '"' h
    rw [hp2] at this
    exact absurd this (by simp)
  refine ⟨(v.data.takeWhile p).length, (m.reverse.takeWhile p).length, ?_, ?_, ?_⟩
  · rw [hT]
    conv_lhs => rw [h1, h3]
    rw [takeWhile_eq_replicate p '"' hp v.data, takeWhile_eq_replicate p '"' hp m.reverse]
    simp [List.append_assoc]
  · rw [hT]
    intro h
    apply hm
    rw [h3]
    cases hrr : r.reverse with
    | nil => rw [hrr] at h; simp at h
    | cons x xs => rw [hrr] at h; simpa using h
  · rw [hT, List.getLast?_reverse]
    exact hr

theorem Trim_quoted (s : String) (h1 : s.data.head? ≠ some '"')
    (h2 : s.data.getLast? ≠ some '"') : Trim ("\"" ++ s ++ "\"") "\"" = s := by
  let p : Char → Bool := fun c => "\"".data.contains c
  have hp : ∀ c, p c = true ↔ c = '"' := quote_contains
  have hd : ("\"" ++ s ++ "\"").data = '"' :: (s.data ++ ['"']) := by
    simp [String.data_append]
  have hq : p '"' = true := (hp '"').2 rfl
  apply String.ext
  show (((("\"" ++ s ++ "\"").data.dropWhile p).reverse.dropWhile p).reverse) = s.data
  rw [hd, List.dropWhile_cons_of_pos hq]
  cases hs : s.data with
  | nil => simp [List.dropWhile, hq]
  | cons c cs =>
    have hc : ¬ p c = true := by
      rw [hp]
      intro h
      apply h1
      rw [hs, h]
      rfl
    rw [List.cons_append, List.dropWhile_cons_of_neg hc]
    have hrev : (c :: (cs ++ ['"'])).reverse = '"' :: (c :: cs).reverse := by simp
    rw [hrev, List.dropWhile_cons_of_pos hq, dropWhile_of_head, List.reverse_reverse]
    intro x hx
    rw [List.head?_reverse, ← hs] at hx
    by_contra hne
    have hx2 : p x = true := by simpa using hne
    rw [hp] at hx2
    rw [hx2] at hx
    exact h2 hx

theorem head?_ne_of_not_mem (s : String) (c : Char) (h : c ∉ s.data) :
    s.data.head? ≠ some c := by
  intro hh
  exact h (List.mem_of_mem_head? hh)

theorem getLast?_ne_of_not_mem (s : String) (c : Char) (h : c ∉ s.data) :
    s.data.getLast? ≠ some c := by
  intro hh
  exact h (List.mem_of_getLast?_eq_some hh)

/-! ## Calls, keys and panics -/

theorem panicAt_eq_none_iff (n : Node) :
    panicAt n = none ↔
      (resolvedName n = some "T" → ∃ lit, firstArg n = some (.BasicLit lit)) := by
  unfold panicAt
  by_cases h : resolvedName n = some "T"
  · simp only [h, if_true, true_implies]
    cases hf : firstArg n with
    | none => simp
    | some a => cases a <;> simp
  · simp [h]

theorem matchedKey_eq_some_iff (n : Node) (k : String) :
    matchedKey n = some k ↔
      resolvedName n = some "T" ∧
        ∃ lit, firstArg n = some (.BasicLit lit) ∧ Trim lit.Value "\"" = k := by
  unfold matchedKey
  by_cases h : resolvedName n = some "T"
  · simp only [h, if_true, true_and]
    cases hf : firstArg n with
    | none => simp
    | some a => cases a <;> simp
  · simp [h]

theorem mem_matchedKeys (f : Node) (k : String) :
    k ∈ matchedKeys f ↔
      ∃ c ∈ f.preorder, resolvedName c = some "T" ∧
        ∃ lit, firstArg c = some (.BasicLit lit) ∧ Trim lit.Value "\"" = k := by
  simp only [matchedKeys, List.mem_filterMap, matchedKey_eq_some_iff]

theorem stringLit_injective (s k : String) (h : stringLit s = stringLit k) : s = k := by
  simp only [stringLit, Node.BasicLit.injEq, BasicLit.mk.injEq, true_and] at h
  have hd := congrArg String.data h
  simp only [String.data_append] at hd
  have h1 := List.append_cancel_right hd
  have h2 := List.append_cancel_left h1
  exact String.ext h2

theorem visitAll_state (ns : List Node) (da : DefaultAnalyzer) :
    ∃ ks, (visitAll ns da).1 = recordAll ks da := by
  rcases hv : visitAll ns da with ⟨da1, _ | p⟩
  · have hn : ∀ n ∈ ns, panicAt n = none := by
      rw [← visitAll_none_iff ns da, hv]
    rw [visitAll_of_noPanic ns da hn] at hv
    exact ⟨_, (Prod.mk.inj hv).1.symm⟩
  · obtain ⟨pre, n, post, _, _, _, hda⟩ := visitAll_panic ns da da1 p hv
    exact ⟨_, hda⟩

theorem AnalyzeFromFile_state (P : String → Except String Node) (da : DefaultAnalyzer)
    (filename : String) : ∃ ks, (AnalyzeFromFile P da filename).da = recordAll ks da := by
  cases hp : P filename with
  | error e => exact ⟨[], by simp [AnalyzeFromFile, hp, recordAll_nil]⟩
  | ok f =>
    obtain ⟨ks, hks⟩ := visitAll_state f.preorder da
    refine ⟨ks, ?_⟩
    rw [← hks]
    simp only [AnalyzeFromFile, hp, Walk_eq_visitAll]
    rcases visitAll f.preorder da with ⟨da1, _ | p⟩ <;> rfl

theorem AnalyzeFromFiles_state (P : String → Except String Node) (files : List String)
    (da : DefaultAnalyzer) : ∃ ks, (AnalyzeFromFiles P da files).da = recordAll ks da := by
  induction files generalizing da with
  | nil => exact ⟨[], by simp [AnalyzeFromFiles, recordAll_nil]⟩
  | cons fn rest ih =>
    obtain ⟨ks1, h1⟩ := AnalyzeFromFile_state P da fn
    rw [AnalyzeFromFiles]
    cases hr : (AnalyzeFromFile P da fn).result with
    | error p => exact ⟨ks1, by simp [h1]⟩
    | ok r =>
      obtain ⟨ks2, h2⟩ := ih (AnalyzeFromFile P da fn).da
      refine ⟨ks1 ++ ks2, ?_⟩
      rw [recordAll_append, ← h1]
      exact h2

theorem resolvedName_foldl_selector (qs : List String) (x : Node)
    (hx : ∀ n ∈ x.preorder, resolvedName n = none) :
    ∀ n ∈ (qs.foldl (fun x s => Node.SelectorExpr x { Name := s }) x).preorder,
      resolvedName n = none := by
  induction qs generalizing x with
  | nil => exact hx
  | cons s qs ih =>
    apply ih
    intro n hn
    simp only [Node.preorder, List.mem_cons, List.mem_append, List.mem_singleton,
      List.mem_nil_iff, or_false] at hn
    rcases hn with rfl | hn | rfl
    · rfl
    · exact hx n hn
    · rfl

theorem resolvedName_selectorChain (q : String) (qs : List String) :
    ∀ n ∈ (selectorChain q qs).preorder, resolvedName n = none := by
  apply resolvedName_foldl_selector
  intro n hn
  simp only [Node.preorder, List.mem_singleton] at hn
  rw [hn]
  rfl

theorem selectorChain_snoc (q : String) (qs : List String) (t : String) :
    selectorChain q (qs ++ [t]) = .SelectorExpr (selectorChain q qs) { Name := t } := by
  simp [selectorChain, List.foldl_append]

theorem panicAt_of_resolvedName_none (n : Node) (h : resolvedName n = none) :
    panicAt n = none := by
  simp [panicAt, h]

theorem matchedKey_of_resolvedName_none (n : Node) (h : resolvedName n = none) :
    matchedKey n = none := by
  simp [matchedKey, h]

/-! ## Further lemmas -/

theorem traversalTrace_ident (x : Ident) (depth : Nat) :
    traversalTrace (.Ident x) depth = ([depth], false) := by
  simp [traversalTrace]

theorem Trim_of_no_quote (v : String) (h1 : v.data.head? ≠ some '"')
    (h2 : v.data.getLast? ≠ some '"') : Trim v "\"" = v := by
  have hp : ∀ (l : List Char), l.head? ≠ some '"' →
      l.dropWhile (fun c => "\"".data.contains c) = l := by
    intro l hl
    apply dropWhile_of_head
    intro c hc
    by_contra hne
    have hq : ("\"".data.contains c) = true := by simpa using hne
    rw [quote_contains] at hq
    rw [hq] at hc
    exact hl hc
  apply String.ext
  show ((v.data.dropWhile (fun c => "\"".data.contains c)).reverse.dropWhile
      (fun c => "\"".data.contains c)).reverse = v.data
  rw [hp v.data h1, hp v.data.reverse (by rw [List.head?_reverse]; exact h2),
    List.reverse_reverse]

theorem Walk_callExpr (da : DefaultAnalyzer) (Fun : Node) (Args : List Node) :
    Walk (.CallExpr Fun Args) da =
      match inspectFn da (some (.CallExpr Fun Args)) with
      | .error p => (da, some p)
      | .ok (_, da1) =>
        match Walk Fun da1 with
        | (da2, none) => walkList Args da2
        | r => r := by
  rw [Walk]
  simp only [inspectFn_none]
  cases h : inspectFn da (some (.CallExpr Fun Args)) with
  | error p => rfl
  | ok v =>
    obtain ⟨b, da1⟩ := v
    have hb : b = true := by
      rw [inspectFn_some] at h
      split at h <;> simp at h
      exact h.1
    subst hb
    simp only
    rcases Walk Fun da1 with ⟨da2, _ | p⟩
    · simp only
      rcases walkList Args da2 with ⟨da3, _ | p⟩ <;> rfl
    · rfl

theorem AnalyzeFromFile_parse_error (P : String → Except String Node) (da : DefaultAnalyzer)
    (filename err : String) (h : P filename = .error err) :
    AnalyzeFromFile P da filename =
      { da := da, stdout := [], result := .error (.parseError err) } := by
  simp [AnalyzeFromFile, h]

theorem record_setDebug (k : String) (da : DefaultAnalyzer) (b : Bool) :
    record k { da with Debug := b } = { record k da with Debug := b } := by
  unfold record
  by_cases h : containsID k da.Records = true <;> simp [h]

theorem visitAll_setDebug (ns : List Node) (da : DefaultAnalyzer) (b : Bool) :
    visitAll ns { da with Debug := b } =
      ({ (visitAll ns da).1 with Debug := b }, (visitAll ns da).2) := by
  induction ns generalizing da with
  | nil => rfl
  | cons n ns ih =>
    simp only [visitAll, inspectFn_some]
    cases hp : panicAt n with
    | some p => rfl
    | none =>
      cases hk : matchedKey n with
      | none => exact ih da
      | some k =>
        simp only [record_setDebug]
        exact ih (record k da)

theorem record_elems (k : String) (da : DefaultAnalyzer) (l : List I18NRecord)
    (h : da.Records = .elems l) : ∃ l2, (record k da).Records = .elems l2 := by
  unfold record
  by_cases hc : containsID k da.Records = true
  · rw [if_pos hc]
    exact ⟨l, h⟩
  · rw [if_neg hc]
    exact ⟨_, rfl⟩

theorem recordAll_elems (ks : List String) (da : DefaultAnalyzer) (l : List I18NRecord)
    (h : da.Records = .elems l) : ∃ l2, (recordAll ks da).Records = .elems l2 := by
  induction ks generalizing da l with
  | nil => exact ⟨l, h⟩
  | cons k ks ih =>
    obtain ⟨l1, h1⟩ := record_elems k da l h
    exact ih (record k da) l1 h1

theorem recordAll_from_nil (ks : List String) (da : DefaultAnalyzer) (h : da.Records = .nil) :
    (recordAll ks da).Records =
      if ks = [] then .nil
      else .elems ((firstOccurrences ks).map (fun k => { ID := k, Translation := "" })) := by
  have hl : da.Records.toList = [] := by rw [h]; rfl
  have hi : da.ids = [] := by simp [DefaultAnalyzer.ids, hl]
  cases ks with
  | nil => simpa [recordAll_nil] using h
  | cons k ks =>
    have hc : containsID k da.Records = false := by
      rw [← Bool.not_eq_true, containsID_iff]
      simp [hl]
    have h1 : (record k da).Records = .elems [{ ID := k, Translation := "" }] := by
      simp [record, hc, Slice.append, hl]
    obtain ⟨l2, h2⟩ := recordAll_elems ks (record k da) _ h1
    have h3 := recordAll_toList (k :: ks) da
    rw [recordAll_cons] at h3 ⊢
    rw [h2, hl, hi] at h3
    simp only [Slice.toList, List.nil_append, List.not_mem_nil, not_false_eq_true,
      decide_True, List.filter_true] at h3
    rw [h2, h3]
    simp

theorem marshalRecord_empty_Translation (k : String) :
    marshalRecord { ID := k, Translation := "" } =
      "\x7b\"id\":" ++ encodeString k ++ ",\"translation\":\"\"\x7d" := by
  apply String.ext
  simp only [marshalRecord, String.data_append, List.append_assoc]
  rfl

/-! ## Properties of the analysis -/

/-- C1 (code defect): an analyzer with `FuncName = "Tr"` and empty `Records`, run on the
file with the calls `T("x")` and `Tr("y")`, returns with `Records` equal to `[{ID:"x"}]`
and not `[{ID:"y"}]`: the walker compares the callee with the constant `"T"` and never
with `Name()`, which is `"Tr"` here. -/
theorem AnalyzeFromFile_ignores_FuncName :
    (DefaultAnalyzer.mk "Tr" false .nil).Name = "Tr" ∧
    (AnalyzeFromFile (fun _ => .ok fileTr) (DefaultAnalyzer.mk "Tr" false .nil) "main.go").result
      = .ok (.elems [{ ID := "x", Translation := "" }]) ∧
    (AnalyzeFromFile (fun _ => .ok fileTr) (DefaultAnalyzer.mk "Tr" false .nil) "main.go").da.Records
      = .elems [{ ID := "x", Translation := "" }] := by
  refine ⟨by decide, ?_, ?_⟩ <;>
  simp [AnalyzeFromFile, Walk, walkList, walkIdent, inspectFn, traversalToIdent, fileTr, goFile,
    callOf, stringLit, Trim, containsID, Slice.append, Slice.toList]

/-- C2 (code defect): a default analyzer run on the file with the calls `T(dynamicVar)`
and `T("later")` panics at the first call, on the type assertion
`x.Args[0].(*ast.BasicLit)`; the walk ends there and the later call is not recorded. -/
theorem AnalyzeFromFile_panics_on_non_literal :
    (AnalyzeFromFile (fun _ => .ok fileDynamic) (DefaultAnalyzer.mk "" false .nil) "main.go").result
      = .error .typeAssertion ∧
    (AnalyzeFromFile (fun _ => .ok fileDynamic) (DefaultAnalyzer.mk "" false .nil) "main.go").da.Records
      = .nil := by
  constructor <;>
  simp [AnalyzeFromFile, Walk, walkList, walkIdent, inspectFn, traversalToIdent, fileDynamic,
    goFile, callOf, stringLit, Trim, containsID, Slice.append, Slice.toList]

/-- C3 (code defect): a default analyzer run on the file with the calls `T()` and
`T("later")` panics at `T()`: `x.Args[0]` is an index out of range on the empty argument
list. -/
theorem AnalyzeFromFile_panics_on_no_argument :
    (AnalyzeFromFile (fun _ => .ok fileNoArgs) (DefaultAnalyzer.mk "" false .nil) "main.go").result
      = .error .indexOutOfRange ∧
    (AnalyzeFromFile (fun _ => .ok fileNoArgs) (DefaultAnalyzer.mk "" false .nil) "main.go").da.Records
      = .nil := by
  constructor <;>
  simp [AnalyzeFromFile, Walk, walkList, walkIdent, inspectFn, traversalToIdent, fileNoArgs,
    goFile, callOf, stringLit, Trim, containsID, Slice.append, Slice.toList]

/-- C4: for an analyzer whose target name `Name()` is `T`, started with empty `Records`,
and every parsed file in which every call to the target function has a double-quoted
string literal without quote or backslash as its first argument, `AnalyzeFromFile`
returns, and the IDs in `Records` are exactly the literal values of those calls: every
such call of the tree, at any depth, contributes its value and no other ID appears. -/
theorem AnalyzeFromFile_ids_are_literal_values (P : String → Except String Node)
    (da : DefaultAnalyzer) (filename : String) (f : Node)
    (hparse : P filename = .ok f) (hname : da.Name = "T")
    (hempty : da.Records.toList = [])
    (hlit : ∀ c ∈ f.preorder, resolvedName c = some da.Name →
      ∃ s, firstArg c = some (stringLit s) ∧ '"' ∉ s.data ∧ '\\' ∉ s.data) :
    (AnalyzeFromFile P da filename).result = .ok (AnalyzeFromFile P da filename).da.Records ∧
    (AnalyzeFromFile P da filename).da.ids.Nodup ∧
    ∀ k, k ∈ (AnalyzeFromFile P da filename).da.ids ↔
      ∃ c ∈ f.preorder, resolvedName c = some da.Name ∧ firstArg c = some (stringLit k) := by
  rw [hname] at hlit ⊢
  have hids : da.ids = [] := by simp [DefaultAnalyzer.ids, hempty]
  have hnp : ∀ n ∈ f.preorder, panicAt n = none := by
    intro n hn
    rw [panicAt_eq_none_iff]
    intro hT
    obtain ⟨s, hs, _⟩ := hlit n hn hT
    exact ⟨_, hs⟩
  rw [AnalyzeFromFile_of_noPanic P da filename f hparse hnp]
  refine ⟨rfl, recordAll_nodup _ da (by simp [hids]), ?_⟩
  intro k
  simp only [mem_recordAll_ids, hids, List.not_mem_nil, false_or, mem_matchedKeys]
  constructor
  · rintro ⟨c, hc, hT, lit, hfa, hk⟩
    obtain ⟨s, hs, hq, _⟩ := hlit c hc hT
    refine ⟨c, hc, hT, ?_⟩
    rw [hs] at hfa ⊢
    have hv : lit = { Kind := .STRING, Value := "\"" ++ s ++ "\"" } := by
      simpa [stringLit] using hfa.symm
    rw [hv] at hk
    simp only at hk
    rw [Trim_quoted s (head?_ne_of_not_mem s '"' hq) (getLast?_ne_of_not_mem s '"' hq)] at hk
    rw [hk]
  · rintro ⟨c, hc, hT, hfa⟩
    obtain ⟨s, hs, hq, _⟩ := hlit c hc hT
    have hsk : s = k := stringLit_injective s k (Option.some.inj (hs.symm.trans hfa))
    subst hsk
    refine ⟨c, hc, hT, _, hfa, ?_⟩
    exact Trim_quoted s (head?_ne_of_not_mem s '"' hq) (getLast?_ne_of_not_mem s '"' hq)

/-- C4 at a concrete input: the file `fileNested`, with a call nested in an argument, and a
default analyzer. -/
theorem AnalyzeFromFile_ids_are_literal_values_witness :
    (AnalyzeFromFile (fun _ => .ok fileNested) (DefaultAnalyzer.mk "" false .nil)
      "main.go").da.ids.Nodup ∧
    ("world" ∈ (AnalyzeFromFile (fun _ => .ok fileNested) (DefaultAnalyzer.mk "" false .nil)
      "main.go").da.ids ↔
      ∃ c ∈ fileNested.preorder,
        resolvedName c = some (DefaultAnalyzer.mk "" false .nil).Name ∧
          firstArg c = some (stringLit "world")) := by
  have h := AnalyzeFromFile_ids_are_literal_values (fun _ => .ok fileNested)
    (DefaultAnalyzer.mk "" false .nil) "main.go" fileNested rfl (by decide) rfl
    (by
      intro c hc hT
      simp only [fileNested, goFile, callOf, Node.preorder, preorderList, List.map,
        List.mem_cons, List.mem_append, List.cons_append, List.nil_append, List.append_nil,
        List.mem_nil_iff, List.not_mem_nil, or_false, or_assoc] at hc
      rcases hc with rfl | rfl | rfl | rfl | rfl | rfl | rfl | rfl | rfl | rfl | rfl | rfl |
        rfl | rfl | rfl | rfl | rfl | rfl | rfl | rfl | rfl | rfl | rfl
      all_goals first
        | (exfalso; revert hT; simp [resolvedName, traversalToIdent, MaxDepth,
            DefaultAnalyzer.Name, DefaultAnalyzerFuncName]; done)
        | exact ⟨"hello", rfl, by decide, by decide⟩
        | exact ⟨"world", rfl, by decide, by decide⟩)
  exact ⟨h.2.1, h.2.2 "world"⟩

/-- C5: for every list of parsed files analysed by `AnalyzeFromFiles` from empty
`Records`, the run returns when no call to `T` lacks a basic literal as first argument,
and whenever it returns, the IDs of the resulting `Records` are the first-occurrence
deduplication of the concatenation, in the order of the files, of each file's matched
keys, the keys of a file being in pre-order (document order) of its call expressions. -/
theorem AnalyzeFromFiles_first_occurrence_order (P : String → Except String Node)
    (files : List String) (trees : List Node) (da : DefaultAnalyzer)
    (hparse : files.map P = trees.map .ok) (hempty : da.Records.toList = []) :
    ((∀ f ∈ trees, ∀ c ∈ f.preorder, resolvedName c = some "T" →
        ∃ lit, firstArg c = some (.BasicLit lit)) →
      ∃ rs, (AnalyzeFromFiles P da files).result = .ok rs) ∧
    (∀ rs, (AnalyzeFromFiles P da files).result = .ok rs →
      (AnalyzeFromFiles P da files).da.Records = rs ∧
      rs.toList.map (·.ID) = firstOccurrences (trees.flatMap matchedKeys)) := by
  have hids : da.ids = [] := by simp [DefaultAnalyzer.ids, hempty]
  have key : (∀ f ∈ trees, ∀ n ∈ f.preorder, panicAt n = none) →
      (AnalyzeFromFiles P da files).result = .ok (AnalyzeFromFiles P da files).da.Records ∧
      (AnalyzeFromFiles P da files).da.ids = firstOccurrences (trees.flatMap matchedKeys) := by
    intro hnp
    rw [AnalyzeFromFiles_of_noPanic P files trees da hparse hnp]
    refine ⟨rfl, ?_⟩
    simp only [recordAll_ids, hids, List.nil_append, List.not_mem_nil, not_false_eq_true,
      decide_True, List.filter_true]
  constructor
  · intro h
    exact ⟨_, (key (fun f hf n hn => (panicAt_eq_none_iff n).2 (h f hf n hn))).1⟩
  · intro rs hrs
    have hnp := AnalyzeFromFiles_noPanic_of_ok P files trees da rs hparse hrs
    obtain ⟨h1, h2⟩ := key hnp
    have hrs2 : (AnalyzeFromFiles P da files).da.Records = rs := by
      rw [h1] at hrs
      exact Except.ok.inj hrs
    refine ⟨hrs2, ?_⟩
    rw [← hrs2]
    exact h2

/-- C5 at a concrete input: the files `a.go` and `b.go`, analysed in this order by a
default analyzer, give `hello`, `world`, `bye`. -/
theorem AnalyzeFromFiles_first_occurrence_order_witness :
    (Slice.elems [I18NRecord.mk "hello" "", I18NRecord.mk "world" "",
        I18NRecord.mk "bye" ""]).toList.map (·.ID) =
      firstOccurrences ([fileNested, fileSecond].flatMap matchedKeys) :=
  ((AnalyzeFromFiles_first_occurrence_order twoFiles ["a.go", "b.go"]
      [fileNested, fileSecond] (DefaultAnalyzer.mk "" false .nil)
      (by simp [twoFiles]) rfl).2
    (.elems [I18NRecord.mk "hello" "", I18NRecord.mk "world" "", I18NRecord.mk "bye" ""])
    (by
      simp [AnalyzeFromFiles, AnalyzeFromFile, twoFiles, Walk, walkList, walkIdent, inspectFn,
        traversalToIdent, fileNested, fileSecond, goFile, callOf, stringLit, Trim, containsID,
        Slice.append, Slice.toList, MaxDepth])).2

/-- C6: if the IDs in `Records` are pairwise distinct before a call of `AnalyzeFromFile`
or of `AnalyzeFromFiles`, they are pairwise distinct in the `Records` the call leaves,
whether it completes or panics, and two records of it with the same ID are the same
record. -/
theorem dedup_invariant (P : String → Except String Node) (da : DefaultAnalyzer)
    (filename : String) (files : List String) (h : da.ids.Nodup) :
    ((AnalyzeFromFile P da filename).da.ids.Nodup ∧
      ∀ r1 ∈ (AnalyzeFromFile P da filename).da.Records.toList,
        ∀ r2 ∈ (AnalyzeFromFile P da filename).da.Records.toList,
          r1.ID = r2.ID → r1 = r2) ∧
    ((AnalyzeFromFiles P da files).da.ids.Nodup ∧
      ∀ r1 ∈ (AnalyzeFromFiles P da files).da.Records.toList,
        ∀ r2 ∈ (AnalyzeFromFiles P da files).da.Records.toList,
          r1.ID = r2.ID → r1 = r2) := by
  obtain ⟨ks1, h1⟩ := AnalyzeFromFile_state P da filename
  obtain ⟨ks2, h2⟩ := AnalyzeFromFiles_state P files da
  have n1 : (AnalyzeFromFile P da filename).da.ids.Nodup := by
    rw [h1]
    exact recordAll_nodup ks1 da h
  have n2 : (AnalyzeFromFiles P da files).da.ids.Nodup := by
    rw [h2]
    exact recordAll_nodup ks2 da h
  exact ⟨⟨n1, fun r1 hr1 r2 hr2 he => List.inj_on_of_nodup_map n1 hr1 hr2 he⟩,
    ⟨n2, fun r1 hr1 r2 hr2 he => List.inj_on_of_nodup_map n2 hr1 hr2 he⟩⟩

/-- C6 at a concrete input: an analyzer that already holds a record of `world`. -/
theorem dedup_invariant_witness :
    (AnalyzeFromFile twoFiles
      (DefaultAnalyzer.mk "" false (.elems [I18NRecord.mk "world" "translated"]))
      "a.go").da.ids.Nodup ∧
    (AnalyzeFromFiles twoFiles
      (DefaultAnalyzer.mk "" false (.elems [I18NRecord.mk "world" "translated"]))
      ["a.go", "b.go"]).da.ids.Nodup :=
  have h := dedup_invariant twoFiles
    (DefaultAnalyzer.mk "" false (.elems [I18NRecord.mk "world" "translated"]))
    "a.go" ["a.go", "b.go"] (by decide)
  ⟨h.1.1, h.2.1⟩

/-- C7: for every file on which `AnalyzeFromFile` completes, from any initial `Records`,
analysing the file a second time with the same analyzer completes too and leaves the
analyzer as the first analysis left it: the same `Records` in the same order, returned
again, and nothing appended. -/
theorem AnalyzeFromFile_idempotent (P : String → Except String Node) (da : DefaultAnalyzer)
    (filename : String) (rs : Slice I18NRecord)
    (h : (AnalyzeFromFile P da filename).result = .ok rs) :
    (AnalyzeFromFile P da filename).da.Records = rs ∧
    (AnalyzeFromFile P (AnalyzeFromFile P da filename).da filename).result = .ok rs ∧
    (AnalyzeFromFile P (AnalyzeFromFile P da filename).da filename).da =
      (AnalyzeFromFile P da filename).da := by
  obtain ⟨f, hf⟩ := AnalyzeFromFile_parsed_of_ok P da filename rs h
  have hnp := AnalyzeFromFile_noPanic_of_ok P da filename f rs hf h
  have h1 := AnalyzeFromFile_of_noPanic P da filename f hf hnp
  rw [h1] at h ⊢
  simp only at h ⊢
  have hrs : (recordAll (matchedKeys f) da).Records = rs := Except.ok.inj h
  have hsub : recordAll (matchedKeys f) (recordAll (matchedKeys f) da) =
      recordAll (matchedKeys f) da :=
    recordAll_of_subset _ _ (fun k hk => (mem_recordAll_ids k _ da).2 (Or.inr hk))
  rw [AnalyzeFromFile_of_noPanic P _ filename f hf hnp]
  simp only [hsub]
  exact ⟨hrs, by rw [hrs], trivial⟩

/-- C7 at a concrete input: the file `a.go` analysed twice by a default analyzer. -/
theorem AnalyzeFromFile_idempotent_witness :
    (AnalyzeFromFile twoFiles (DefaultAnalyzer.mk "" false .nil) "a.go").da.Records =
      .elems [I18NRecord.mk "hello" "", I18NRecord.mk "world" ""] ∧
    (AnalyzeFromFile twoFiles
      (AnalyzeFromFile twoFiles (DefaultAnalyzer.mk "" false .nil) "a.go").da "a.go").result =
      .ok (.elems [I18NRecord.mk "hello" "", I18NRecord.mk "world" ""]) ∧
    (AnalyzeFromFile twoFiles
      (AnalyzeFromFile twoFiles (DefaultAnalyzer.mk "" false .nil) "a.go").da "a.go").da =
      (AnalyzeFromFile twoFiles (DefaultAnalyzer.mk "" false .nil) "a.go").da :=
  AnalyzeFromFile_idempotent twoFiles (DefaultAnalyzer.mk "" false .nil) "a.go"
    (.elems [I18NRecord.mk "hello" "", I18NRecord.mk "world" ""])
    (by
      simp [AnalyzeFromFile, twoFiles, Walk, walkList, walkIdent, inspectFn,
        traversalToIdent, fileNested, goFile, callOf, stringLit, Trim, containsID,
        Slice.append, Slice.toList, MaxDepth])

/-- C8 (the claim fails): for the source literal `"\""`, whose text is `"` ++ s ++ `"`
with s the two characters `\` and `"`, the recorded ID is the single character `\` and
not s: `strings.Trim` takes away both trailing double quotes. -/
theorem Trim_strips_every_trailing_quote :
    stringLit "\\\"" = .BasicLit { Kind := .STRING, Value := "\"" ++ "\\\"" ++ "\"" } ∧
    (AnalyzeFromFile (fun _ => .ok fileEscapedQuote) (DefaultAnalyzer.mk "" false .nil)
      "main.go").result = .ok (.elems [{ ID := "\\", Translation := "" }]) ∧
    "\\" ≠ "\\\"" := by
  refine ⟨rfl, ?_, by decide⟩
  simp [AnalyzeFromFile, Walk, walkList, walkIdent, inspectFn, traversalToIdent,
    fileEscapedQuote, goFile, callOf, stringLit, Trim, containsID, Slice.append, Slice.toList]

/-- C8 (amended): for an analyzer whose target name is `T`, every parsed file on which
`AnalyzeFromFile` completes and every call to the target name in it whose first argument
is a basic literal (a string literal in particular), `Records` holds a record whose ID is the raw literal text with all
its leading and all its trailing double-quote characters removed and nothing else
changed; for the literal text `"` ++ s ++ `"` that ID is s whenever s neither begins nor
ends with a double-quote character. -/
theorem record_ID_is_trimmed_literal (P : String → Except String Node)
    (da : DefaultAnalyzer) (filename : String) (f : Node) (rs : Slice I18NRecord)
    (c : Node) (lit : BasicLit)
    (hparse : P filename = .ok f) (hname : da.Name = "T")
    (hres : (AnalyzeFromFile P da filename).result = .ok rs)
    (hc : c ∈ f.preorder) (hcall : resolvedName c = some da.Name)
    (harg : firstArg c = some (.BasicLit lit)) :
    (∃ r ∈ rs.toList, r.ID = Trim lit.Value "\"") ∧
    (∃ a b : Nat,
      lit.Value.data =
        List.replicate a '"' ++ (Trim lit.Value "\"").data ++ List.replicate b '"' ∧
      (Trim lit.Value "\"").data.head? ≠ some '"' ∧
      (Trim lit.Value "\"").data.getLast? ≠ some '"') ∧
    (∀ s : String, lit.Value = "\"" ++ s ++ "\"" → s.data.head? ≠ some '"' →
      s.data.getLast? ≠ some '"' → Trim lit.Value "\"" = s) := by
  rw [hname] at hcall
  have hnp := AnalyzeFromFile_noPanic_of_ok P da filename f rs hparse hres
  rw [AnalyzeFromFile_of_noPanic P da filename f hparse hnp] at hres
  have hrs : (recordAll (matchedKeys f) da).Records = rs := Except.ok.inj hres
  have hmem : Trim lit.Value "\"" ∈ (recordAll (matchedKeys f) da).ids :=
    (mem_recordAll_ids _ _ da).2 (Or.inr ((mem_matchedKeys f _).2 ⟨c, hc, hcall, lit, harg, rfl⟩))
  refine ⟨?_, Trim_quote_spec lit.Value, ?_⟩
  · rw [← hrs]
    simpa [DefaultAnalyzer.ids] using hmem
  · intro s hs h1 h2
    rw [hs]
    exact Trim_quoted s h1 h2

/-- C8 (amended) at a concrete input: the call `T("x")` of `fileTr`, analysed by an
analyzer with `FuncName = "T"`. -/
theorem record_ID_is_trimmed_literal_witness :
    ∃ r ∈ (Slice.elems [I18NRecord.mk "x" ""]).toList,
      r.ID = Trim (BasicLit.mk .STRING "\"x\"").Value "\"" :=
  (record_ID_is_trimmed_literal (fun _ => .ok fileTr) (DefaultAnalyzer.mk "T" false .nil)
    "main.go" fileTr (.elems [I18NRecord.mk "x" ""]) (callOf "T" [stringLit "x"])
    (BasicLit.mk .STRING "\"x\"") rfl (by decide)
    (by
      simp [AnalyzeFromFile, Walk, walkList, walkIdent, inspectFn, traversalToIdent, fileTr,
        goFile, callOf, stringLit, Trim, containsID, Slice.append, Slice.toList])
    (by simp [fileTr, goFile, callOf, Node.preorder, preorderList])
    (by simp [resolvedName, callOf, traversalToIdent, DefaultAnalyzer.Name])
    rfl).1

/-- C9 (the claim fails): a default analyzer run on the file with the call
`a.b.c.d.e.f.T("k")`, whose callee has six levels of qualification, matches the call and
records `k`. -/
theorem six_levels_of_qualification_match :
    (AnalyzeFromFile (fun _ => .ok fileSixLevels) (DefaultAnalyzer.mk "" false .nil)
      "main.go").result = .ok (.elems [{ ID := "k", Translation := "" }]) := by
  simp [AnalyzeFromFile, Walk, walkList, walkIdent, inspectFn, traversalToIdent,
    fileSixLevels, selectorChain, goFile, callOf, stringLit, Trim, containsID, Slice.append,
    Slice.toList, MaxDepth]

/-- C9 (amended): for an analyzer whose target name is `T`, a qualified callee whose final
segment is the target name is matched at every qualification depth, from one level up
and six levels and more included: the file with the one call `q.q₁.….qₙ.T("k")`,
analysed from empty `Records`, is analysed without a panic and leaves exactly the record
of `k`. -/
theorem qualified_callee_matches_at_any_depth (da : DefaultAnalyzer) (q : String)
    (qs : List String) (k : String) (filename : String)
    (hname : da.Name = "T") (hempty : da.Records.toList = []) (hk : '"' ∉ k.data) :
    (AnalyzeFromFile
      (fun _ => .ok (goFile [.CallExpr (selectorChain q (qs ++ [da.Name])) [stringLit k]]))
      da filename).result = .ok (.elems [{ ID := k, Translation := "" }]) := by
  rw [hname]
  have hres : resolvedName (.CallExpr (selectorChain q (qs ++ ["T"])) [stringLit k])
      = some "T" := by
    simp [resolvedName, selectorChain_snoc, traversalToIdent_selector, MaxDepth]
  have hkey : matchedKey (.CallExpr (selectorChain q (qs ++ ["T"])) [stringLit k])
      = some k := by
    rw [matchedKey_eq_some_iff]
    exact ⟨hres, _, rfl,
      Trim_quoted k (head?_ne_of_not_mem k '"' hk) (getLast?_ne_of_not_mem k '"' hk)⟩
  have hpan : panicAt (.CallExpr (selectorChain q (qs ++ ["T"])) [stringLit k]) = none := by
    rw [panicAt_eq_none_iff]
    intro _
    exact ⟨_, rfl⟩
  have hchain := resolvedName_selectorChain q (qs ++ ["T"])
  have hnp : ∀ n ∈ (goFile [.CallExpr (selectorChain q (qs ++ ["T"])) [stringLit k]]).preorder,
      panicAt n = none := by
    intro n hn
    simp only [goFile, Node.preorder, preorderList, List.map, List.mem_cons, List.mem_append,
      List.append_nil, List.mem_nil_iff, List.not_mem_nil, or_false, stringLit,
      List.mem_singleton, or_assoc] at hn
    rcases hn with rfl | rfl | rfl | rfl | rfl | rfl | rfl | rfl | rfl | hn | rfl
    any_goals rfl
    · exact hpan
    · exact panicAt_of_resolvedName_none n (hchain n hn)
  have hkeys : matchedKeys (goFile [.CallExpr (selectorChain q (qs ++ ["T"])) [stringLit k]])
      = [k] := by
    have hch : (selectorChain q (qs ++ ["T"])).preorder.filterMap matchedKey = [] := by
      rw [List.filterMap_eq_nil_iff]
      intro n hn
      exact matchedKey_of_resolvedName_none n (hchain n hn)
    simp only [matchedKeys, goFile, Node.preorder, preorderList, List.map, List.append_nil,
      List.filterMap_cons, List.filterMap_append, hch, hkey, List.nil_append]
    simp [matchedKey, resolvedName, stringLit]
  rw [AnalyzeFromFile_of_noPanic _ da filename _ rfl hnp, hkeys]
  have hc : containsID k da.Records = false := by
    rw [← Bool.not_eq_true, containsID_iff]
    simp [hempty]
  simp [recordAll, record, hc, Slice.append, hempty]

/-- C9 (amended) at a concrete input: the call `a.b.c.d.e.f.T("k")`, six levels deep. -/
theorem qualified_callee_matches_at_any_depth_witness :
    (AnalyzeFromFile
      (fun _ => .ok (goFile [.CallExpr
        (selectorChain "a" (["b", "c", "d", "e", "f"] ++ [(DefaultAnalyzer.mk "T" false .nil).Name]))
        [stringLit "k"]]))
      (DefaultAnalyzer.mk "T" false .nil) "main.go").result =
      .ok (.elems [{ ID := "k", Translation := "" }]) :=
  qualified_callee_matches_at_any_depth (DefaultAnalyzer.mk "T" false .nil) "a"
    ["b", "c", "d", "e", "f"] "k" "main.go" (by decide) rfl (by decide)

/-- C10 (code defect): a default analyzer with empty `Records`, run on the file with the
calls `T("hello")`, `T("hello")`, `T("world")`, `fmt.Println(x)` and `T(dynamicVar)` in
this order, does not complete: it panics at `T(dynamicVar)` on the type assertion, after
it recorded `hello` and `world`, so the call of `DumpJSON` after it is never reached. -/
theorem AnalyzeFromFile_scenario_panics :
    (AnalyzeFromFile (fun _ => .ok fileScenario) (DefaultAnalyzer.mk "" false .nil) "main.go").result
      = .error .typeAssertion ∧
    (AnalyzeFromFile (fun _ => .ok fileScenario) (DefaultAnalyzer.mk "" false .nil) "main.go").da.Records
      = .elems [{ ID := "hello", Translation := "" }, { ID := "world", Translation := "" }] := by
  constructor <;>
  simp [AnalyzeFromFile, Walk, walkList, walkIdent, inspectFn, traversalToIdent, fileScenario,
    goFile, callOf, stringLit, Trim, containsID, Slice.append, Slice.toList, MaxDepth]

/-! ## Literals, failures, frame and serialisation -/

/-- C11 (the claim fails): a default analyzer run on the file with the call `T(42)`,
whose first argument is an integer literal, returns with the record `{ID:"42"}`. -/
theorem integer_literal_is_recorded :
    (AnalyzeFromFile (fun _ => .ok fileInt) (DefaultAnalyzer.mk "" false .nil)
      "main.go").result = .ok (.elems [{ ID := "42", Translation := "" }]) := by
  simp [AnalyzeFromFile, Walk, walkList, walkIdent, inspectFn, traversalToIdent, fileInt,
    goFile, callOf, Trim, containsID, Slice.append, Slice.toList]

/-- C11 (amended): for an analyzer whose target name is `T`, a call to the target name
produces a record whenever its first argument is a basic literal, whatever its kind
(integer, float, imaginary, character or string): on a file whose analysis completes,
`Records` holds a record whose ID is the literal's text trimmed of double quotes, which
is the literal's text itself when it neither begins nor ends with a double quote, as for
`T(42)`. -/
theorem basic_literal_of_any_kind_is_recorded (P : String → Except String Node)
    (da : DefaultAnalyzer) (filename : String) (f : Node) (rs : Slice I18NRecord)
    (c : Node) (kind : Token) (value : String)
    (hparse : P filename = .ok f) (hname : da.Name = "T")
    (hres : (AnalyzeFromFile P da filename).result = .ok rs)
    (hc : c ∈ f.preorder) (hcall : resolvedName c = some da.Name)
    (harg : firstArg c = some (.BasicLit { Kind := kind, Value := value })) :
    (∃ r ∈ rs.toList, r.ID = Trim value "\"") ∧
    (value.data.head? ≠ some '"' → value.data.getLast? ≠ some '"' →
      ∃ r ∈ rs.toList, r.ID = value) := by
  rw [hname] at hcall
  have hnp := AnalyzeFromFile_noPanic_of_ok P da filename f rs hparse hres
  rw [AnalyzeFromFile_of_noPanic P da filename f hparse hnp] at hres
  have hrs : (recordAll (matchedKeys f) da).Records = rs := Except.ok.inj hres
  have hmem : Trim value "\"" ∈ (recordAll (matchedKeys f) da).ids :=
    (mem_recordAll_ids _ _ da).2
      (Or.inr ((mem_matchedKeys f _).2 ⟨c, hc, hcall, _, harg, rfl⟩))
  have h1 : ∃ r ∈ rs.toList, r.ID = Trim value "\"" := by
    rw [← hrs]
    simpa [DefaultAnalyzer.ids] using hmem
  refine ⟨h1, ?_⟩
  intro hh hl
  rw [Trim_of_no_quote value hh hl] at h1
  exact h1

/-- C11 (amended) at a concrete input: the call `T(42)` of `fileInt`. -/
theorem basic_literal_of_any_kind_is_recorded_witness :
    ∃ r ∈ (Slice.elems [I18NRecord.mk "42" ""]).toList, r.ID = "42" :=
  (basic_literal_of_any_kind_is_recorded (fun _ => .ok fileInt)
    (DefaultAnalyzer.mk "" false .nil) "main.go" fileInt (.elems [I18NRecord.mk "42" ""])
    (callOf "T" [.BasicLit { Kind := .INT, Value := "42" }]) .INT "42" rfl (by decide)
    (by
      simp [AnalyzeFromFile, Walk, walkList, walkIdent, inspectFn, traversalToIdent, fileInt,
        goFile, callOf, Trim, containsID, Slice.append, Slice.toList])
    (by simp [fileInt, goFile, callOf, Node.preorder, preorderList])
    (by simp [resolvedName, callOf, traversalToIdent, DefaultAnalyzer.Name,
      DefaultAnalyzerFuncName])
    rfl).2 (by decide) (by decide)

/-- C12: for every call expression whose callee is neither a simple name nor a
qualified-access expression, `traversalToIdent` returns no identifier and the walker
skips the node: the function of the walk returns true with the analyzer unchanged and
raises no panic, whatever the argument list is, and the walk goes on into the callee and
the arguments from the unchanged analyzer. -/
theorem unresolved_callee_is_skipped (da : DefaultAnalyzer) (Fun : Node) (Args : List Node)
    (h1 : ∀ x, Fun ≠ .Ident x) (h2 : ∀ X Sel, Fun ≠ .SelectorExpr X Sel) :
    traversalToIdent Fun 0 = none ∧
    inspectFn da (some (.CallExpr Fun Args)) = .ok (true, da) ∧
    Walk (.CallExpr Fun Args) da =
      (match Walk Fun da with
       | (da2, none) => walkList Args da2
       | r => r) := by
  have ht : traversalToIdent Fun 0 = none := by
    cases Fun with
    | Ident x => exact absurd rfl (h1 x)
    | SelectorExpr X Sel => exact absurd rfl (h2 X Sel)
    | BasicLit x => simp [traversalToIdent]
    | CallExpr F A => simp [traversalToIdent]
    | Other k cs => simp [traversalToIdent]
  have hi : inspectFn da (some (.CallExpr Fun Args)) = .ok (true, da) := by
    simp [inspectFn, ht]
  refine ⟨ht, hi, ?_⟩
  rw [Walk_callExpr, hi]

/-- C12 at a concrete input: the call `(T)()`, with a parenthesized callee and no
argument, and an analyzer that holds one record. -/
theorem unresolved_callee_is_skipped_witness :
    traversalToIdent (.Other "ParenExpr" [.Ident { Name := "T" }]) 0 = none ∧
    inspectFn (DefaultAnalyzer.mk "" false (.elems [I18NRecord.mk "hello" ""]))
      (some (.CallExpr (.Other "ParenExpr" [.Ident { Name := "T" }]) [])) =
      .ok (true, DefaultAnalyzer.mk "" false (.elems [I18NRecord.mk "hello" ""])) :=
  have h := unresolved_callee_is_skipped
    (DefaultAnalyzer.mk "" false (.elems [I18NRecord.mk "hello" ""]))
    (.Other "ParenExpr" [.Ident { Name := "T" }]) []
    (fun x hx => by cases hx) (fun X Sel hx => by cases hx)
  ⟨h.1, h.2.1⟩

/-- C13: a parse failure is fatal and leaves the analyzer untouched: if the parser
rejects a file, `AnalyzeFromFile` panics with the parser's error before any walk or dump
and `Records` is what it was; `AnalyzeFromFiles`, on a list in which the files before the
rejected one were analysed to the end, stops at the rejected file with that panic, and
its outcome is that of the files before it, whatever files follow. -/
theorem parse_failure_is_fatal (P : String → Except String Node) (da : DefaultAnalyzer)
    (pre : List String) (filename : String) (post : List String) (err : String)
    (rs : Slice I18NRecord) (hbad : P filename = .error err)
    (hpre : (AnalyzeFromFiles P da pre).result = .ok rs) :
    AnalyzeFromFile P da filename =
      { da := da, stdout := [], result := .error (.parseError err) } ∧
    AnalyzeFromFiles P da (pre ++ filename :: post) =
      { da := (AnalyzeFromFiles P da pre).da,
        stdout := (AnalyzeFromFiles P da pre).stdout,
        result := .error (.parseError err) } := by
  refine ⟨AnalyzeFromFile_parse_error P da filename err hbad, ?_⟩
  induction pre generalizing da with
  | nil =>
    simp [AnalyzeFromFiles, AnalyzeFromFile_parse_error P da filename err hbad]
  | cons fn rest ih =>
    rw [AnalyzeFromFiles] at hpre
    rw [List.cons_append, AnalyzeFromFiles]
    conv_rhs => rw [AnalyzeFromFiles]
    cases h1 : (AnalyzeFromFile P da fn).result with
    | error p => simp [h1] at hpre
    | ok r1 =>
      simp only [h1] at hpre ⊢
      rw [ih _ hpre]

/-- C13 at a concrete input: `a.go`, then the rejected `bad.go`, then `b.go`. -/
theorem parse_failure_is_fatal_witness :
    AnalyzeFromFiles withBadFile (DefaultAnalyzer.mk "" false .nil)
      (["a.go"] ++ "bad.go" :: ["b.go"]) =
      { da := (AnalyzeFromFiles withBadFile (DefaultAnalyzer.mk "" false .nil) ["a.go"]).da,
        stdout :=
          (AnalyzeFromFiles withBadFile (DefaultAnalyzer.mk "" false .nil) ["a.go"]).stdout,
        result := .error (.parseError "bad.go:3:1: expected declaration, found EOF") } :=
  (parse_failure_is_fatal withBadFile (DefaultAnalyzer.mk "" false .nil) ["a.go"] "bad.go"
    ["b.go"] "bad.go:3:1: expected declaration, found EOF"
    (.elems [I18NRecord.mk "hello" "", I18NRecord.mk "world" ""])
    (by simp [withBadFile])
    (by
      simp [AnalyzeFromFiles, AnalyzeFromFile, withBadFile, twoFiles, Walk, walkList,
        walkIdent, inspectFn, traversalToIdent, fileNested, goFile, callOf, stringLit, Trim,
        containsID, Slice.append, Slice.toList, MaxDepth])).2

/-- C14: no record is removed or changed: for every analyzer and every call of
`AnalyzeFromFile` or of `AnalyzeFromFiles`, whether it completes or panics, the `Records`
before the call are a prefix of the `Records` after it, and `FuncName` and `Debug` are
unchanged. -/
theorem records_only_grow (P : String → Except String Node) (da : DefaultAnalyzer)
    (filename : String) (files : List String) :
    (da.Records.toList <+: (AnalyzeFromFile P da filename).da.Records.toList ∧
      (AnalyzeFromFile P da filename).da.FuncName = da.FuncName ∧
      (AnalyzeFromFile P da filename).da.Debug = da.Debug) ∧
    (da.Records.toList <+: (AnalyzeFromFiles P da files).da.Records.toList ∧
      (AnalyzeFromFiles P da files).da.FuncName = da.FuncName ∧
      (AnalyzeFromFiles P da files).da.Debug = da.Debug) := by
  obtain ⟨ks1, h1⟩ := AnalyzeFromFile_state P da filename
  obtain ⟨ks2, h2⟩ := AnalyzeFromFiles_state P files da
  rw [h1, h2]
  exact ⟨⟨by rw [recordAll_toList]; exact List.prefix_append _ _,
      (recordAll_config ks1 da).1, (recordAll_config ks1 da).2⟩,
    ⟨by rw [recordAll_toList]; exact List.prefix_append _ _,
      (recordAll_config ks2 da).1, (recordAll_config ks2 da).2⟩⟩

/-- C15: `Name()` returns `FuncName` when `FuncName` is not the empty string and `"T"`,
the constant `DefaultAnalyzerFuncName`, when it is; it never returns the empty string. -/
theorem Name_spec (da : DefaultAnalyzer) :
    (da.FuncName ≠ "" → da.Name = da.FuncName) ∧
    (da.FuncName = "" → da.Name = "T" ∧ da.Name = DefaultAnalyzerFuncName) ∧
    da.Name ≠ "" := by
  unfold DefaultAnalyzer.Name DefaultAnalyzerFuncName
  by_cases h : da.FuncName = ""
  · simp [h]
  · simp [h]

/-- C16: every record that `AnalyzeFromFile` or `AnalyzeFromFiles` appends has an empty
`Translation`: the `Records` after a call are those before it followed by records with
`Translation = ""`; so, starting from empty `Records`, every record after the call has
`Translation = ""`. -/
theorem appended_records_have_empty_Translation (P : String → Except String Node)
    (da : DefaultAnalyzer) (filename : String) (files : List String)
    (hempty : da.Records.toList = []) :
    ((∃ added, (AnalyzeFromFile P da filename).da.Records.toList =
          da.Records.toList ++ added ∧ ∀ r ∈ added, r.Translation = "") ∧
      ∀ r ∈ (AnalyzeFromFile P da filename).da.Records.toList, r.Translation = "") ∧
    ((∃ added, (AnalyzeFromFiles P da files).da.Records.toList =
          da.Records.toList ++ added ∧ ∀ r ∈ added, r.Translation = "") ∧
      ∀ r ∈ (AnalyzeFromFiles P da files).da.Records.toList, r.Translation = "") := by
  have key : ∀ ks : List String,
      (∃ added, (recordAll ks da).Records.toList = da.Records.toList ++ added ∧
        ∀ r ∈ added, r.Translation = "") ∧
      ∀ r ∈ (recordAll ks da).Records.toList, r.Translation = "" := by
    intro ks
    have hadd : ∀ r ∈ ((firstOccurrences ks).filter (fun x => decide (x ∉ da.ids))).map
        (fun k => ({ ID := k, Translation := "" } : I18NRecord)), r.Translation = "" := by
      intro r hr
      obtain ⟨k, _, hk⟩ := List.mem_map.1 hr
      rw [← hk]
    refine ⟨⟨_, recordAll_toList ks da, hadd⟩, ?_⟩
    intro r hr
    rw [recordAll_toList, hempty, List.nil_append] at hr
    exact hadd r hr
  obtain ⟨ks1, h1⟩ := AnalyzeFromFile_state P da filename
  obtain ⟨ks2, h2⟩ := AnalyzeFromFiles_state P files da
  rw [h1, h2]
  exact ⟨key ks1, key ks2⟩

/-- C16 at a concrete input: a default analyzer and the files `a.go` and `b.go`. -/
theorem appended_records_have_empty_Translation_witness :
    (∀ r ∈ (AnalyzeFromFile twoFiles (DefaultAnalyzer.mk "" false .nil)
        "a.go").da.Records.toList, r.Translation = "") ∧
    (∀ r ∈ (AnalyzeFromFiles twoFiles (DefaultAnalyzer.mk "" false .nil)
        ["a.go", "b.go"]).da.Records.toList, r.Translation = "") :=
  have h := appended_records_have_empty_Translation twoFiles
    (DefaultAnalyzer.mk "" false .nil) "a.go" ["a.go", "b.go"] rfl
  ⟨h.1.2, h.2.2⟩

/-- C17: the `Debug` flag has no effect on the extraction: for every file, `FuncName` and
initial `Records`, the run of `AnalyzeFromFile` with `Debug` set and the run with `Debug`
unset end the same way, both with the same panic or both with the same returned slice,
and leave the same `Records` and `FuncName`; they differ in the tree dump only. -/
theorem Debug_has_no_effect (P : String → Except String Node) (da : DefaultAnalyzer)
    (filename : String) :
    (AnalyzeFromFile P { da with Debug := true } filename).result =
      (AnalyzeFromFile P { da with Debug := false } filename).result ∧
    (AnalyzeFromFile P { da with Debug := true } filename).da.Records =
      (AnalyzeFromFile P { da with Debug := false } filename).da.Records ∧
    (AnalyzeFromFile P { da with Debug := true } filename).da.FuncName =
      (AnalyzeFromFile P { da with Debug := false } filename).da.FuncName := by
  cases hp : P filename with
  | error e => simp [AnalyzeFromFile, hp]
  | ok f =>
    simp only [AnalyzeFromFile, hp, Walk_eq_visitAll, visitAll_setDebug f.preorder da true,
      visitAll_setDebug f.preorder da false]
    rcases visitAll f.preorder da with ⟨da1, _ | p⟩ <;> simp

/-- C18 (the claim fails): a default analyzer, whose `Records` is the nil slice, run on a
file without a call to `T`, returns with `Records` still nil, and `DumpJSON` then returns
`null`, not the empty array `[]`. -/
theorem DumpJSON_of_no_match_is_null :
    (AnalyzeFromFile (fun _ => .ok fileNoMatch) (DefaultAnalyzer.mk "" false .nil)
      "main.go").result = .ok .nil ∧
    (AnalyzeFromFile (fun _ => .ok fileNoMatch) (DefaultAnalyzer.mk "" false .nil)
      "main.go").da.DumpJSON = .ok "null" ∧
    "null" ≠ "[]" := by
  refine ⟨?_, ?_, by decide⟩ <;>
  simp [AnalyzeFromFile, Walk, walkList, walkIdent, inspectFn, traversalToIdent, fileNoMatch,
    goFile, MaxDepth, DefaultAnalyzer.DumpJSON, Marshal]

/-- C18 (amended): `DumpJSON` never returns an error; for every non-nil record collection
it returns a JSON array with one object per record, in collection order, each object
having exactly the two string fields `id` and `translation` with the record's ID and
Translation, and `[]` for the empty non-nil collection; for the nil collection it
returns `null`. An analyzer that starts from nil `Records` and completes the analysis of
a file returns `null` when the file has no matched call and otherwise the array of the
first occurrences of the matched keys, each with an empty translation. -/
theorem DumpJSON_spec (P : String → Except String Node) (da : DefaultAnalyzer)
    (filename : String) (f : Node) (rs : Slice I18NRecord)
    (hparse : P filename = .ok f) (hnil : da.Records = .nil)
    (hres : (AnalyzeFromFile P da filename).result = .ok rs) :
    (∀ d : DefaultAnalyzer, ∃ out, d.DumpJSON = .ok out) ∧
    (∀ (d : DefaultAnalyzer) (l : List I18NRecord), d.Records = .elems l →
      d.DumpJSON = .ok ("[" ++ ",".intercalate (l.map (fun r =>
        "\x7b\"id\":" ++ encodeString r.ID ++ ",\"translation\":" ++
          encodeString r.Translation ++ "\x7d")) ++ "]")) ∧
    (∀ d : DefaultAnalyzer, d.Records = .elems [] → d.DumpJSON = .ok "[]") ∧
    (∀ d : DefaultAnalyzer, d.Records = .nil → d.DumpJSON = .ok "null") ∧
    (matchedKeys f = [] → (AnalyzeFromFile P da filename).da.DumpJSON = .ok "null") ∧
    (matchedKeys f ≠ [] → (AnalyzeFromFile P da filename).da.DumpJSON =
      .ok ("[" ++ ",".intercalate ((firstOccurrences (matchedKeys f)).map (fun k =>
        "\x7b\"id\":" ++ encodeString k ++ ",\"translation\":\"\"\x7d")) ++ "]")) := by
  have hnp := AnalyzeFromFile_noPanic_of_ok P da filename f rs hparse hres
  have hrec := recordAll_from_nil (matchedKeys f) da hnil
  rw [AnalyzeFromFile_of_noPanic P da filename f hparse hnp]
  refine ⟨?_, ?_, ?_, ?_, ?_, ?_⟩
  · intro d
    unfold DefaultAnalyzer.DumpJSON Marshal
    cases d.Records <;> exact ⟨_, rfl⟩
  · intro d l hd
    simp only [DefaultAnalyzer.DumpJSON, Marshal, hd]
    rfl
  · intro d hd
    simp only [DefaultAnalyzer.DumpJSON, Marshal, hd]
    rfl
  · intro d hd
    simp only [DefaultAnalyzer.DumpJSON, Marshal, hd]
  · intro hk
    show Marshal (recordAll (matchedKeys f) da).Records = .ok "null"
    rw [hrec, if_pos hk]
    rfl
  · intro hk
    show Marshal (recordAll (matchedKeys f) da).Records = _
    rw [hrec, if_neg hk]
    simp only [Marshal, List.map_map]
    have hfun : (marshalRecord ∘ fun k => ({ ID := k, Translation := "" } : I18NRecord)) =
        fun k => "\x7b\"id\":" ++ encodeString k ++ ",\"translation\":\"\"\x7d" := by
      funext k
      exact marshalRecord_empty_Translation k
    rw [hfun]

/-- C18 (amended) at a concrete input: the file `a.go`, with the keys `hello`, `world`
and `hello` again, analysed by a default analyzer. -/
theorem DumpJSON_spec_witness :
    (DefaultAnalyzer.mk "" false (.elems [I18NRecord.mk "hello" "", I18NRecord.mk "world" ""])).DumpJSON
      = .ok "[\x7b\"id\":\"hello\",\"translation\":\"\"\x7d,\x7b\"id\":\"world\",\"translation\":\"\"\x7d]" :=
  ((DumpJSON_spec twoFiles (DefaultAnalyzer.mk "" false .nil) "a.go" fileNested
    (.elems [I18NRecord.mk "hello" "", I18NRecord.mk "world" ""]) rfl rfl
    (by
      simp [AnalyzeFromFile, twoFiles, Walk, walkList, walkIdent, inspectFn,
        traversalToIdent, fileNested, goFile, callOf, stringLit, Trim, containsID,
        Slice.append, Slice.toList, MaxDepth])).2.1 _ _ rfl).trans (by rfl)

/-- C19: for every callee expression `e`, `traversalToIdent e 0` is `e` itself when `e`
is a simple name, the selected name `Sel` when `e` is a qualified-access expression,
whatever its object part is, and nil otherwise; the calls it makes are at depth 0 and 1
only and none of them ends in the branch `depth >= MaxDepth`. The function is total. -/
theorem traversalToIdent_spec (e : Node) :
    traversalToIdent e 0 =
      (match e with
       | .Ident x => some x
       | .SelectorExpr _ Sel => some Sel
       | _ => none) ∧
    (∀ d ∈ (traversalTrace e 0).1, d ≤ 1) ∧
    (traversalTrace e 0).2 = false := by
  cases e with
  | Ident x => simp [traversalToIdent, traversalTrace]
  | SelectorExpr X Sel =>
    simp [traversalToIdent_selector, traversalTrace, traversalTrace_ident, MaxDepth]
  | BasicLit x => simp [traversalToIdent, traversalTrace]
  | CallExpr F A => simp [traversalToIdent, traversalTrace]
  | Other k cs => simp [traversalToIdent, traversalTrace]

/-- C20: records are appended in pre-order of the call-expression nodes: the walk of a
call expression first runs the function of the walk on the call itself, which appends
its key, and only then walks the callee and the arguments; the chained call
`T("a").T("b")` analysed from empty `Records` gives `[{ID:"b"},{ID:"a"}]`. -/
theorem enclosing_call_is_recorded_first (da : DefaultAnalyzer) (Fun : Node)
    (Args : List Node) :
    Walk (.CallExpr Fun Args) da =
      (match inspectFn da (some (.CallExpr Fun Args)) with
       | .error p => (da, some p)
       | .ok (_, da1) =>
         match Walk Fun da1 with
         | (da2, none) => walkList Args da2
         | r => r) ∧
    (AnalyzeFromFile (fun _ => .ok fileChained) (DefaultAnalyzer.mk "" false .nil)
      "main.go").result =
      .ok (.elems [{ ID := "b", Translation := "" }, { ID := "a", Translation := "" }]) := by
  refine ⟨Walk_callExpr da Fun Args, ?_⟩
  simp [AnalyzeFromFile, Walk, walkList, walkIdent, inspectFn, traversalToIdent, fileChained,
    chainedCall, goFile, callOf, stringLit, Trim, containsID, Slice.append, Slice.toList,
    MaxDepth]

end Goi18np
